import Mathlib

/-!
A verification development for the npm package resolution, caching and
CJS-to-ESM translation core of this repository.  The Rust sources under
`src/cli/npm`, `src/cli/compat` and `src/ext/node` are shallowly embedded
as executable Lean definitions; machine strings are `String`, byte data is
`List Nat`, hash maps are association lists (`List (key × value)`), and
fallible code returns `Except`.  External crates (`ring`'s SHA-512,
`base64`, the network stack) are abstracted as function parameters or
response oracles; `semver` versions are embedded as numeric
major/minor/patch triples, which covers every version exercised by the
design's scenarios.
-/

namespace DenoNpm

/-! ## Association-list helpers (embedding of `HashMap` operations) -/

def lookupStr {α : Type} : List (String × α) → String → Option α
  | [], _ => none
  | (k, v) :: rest, key => if k = key then some v else lookupStr rest key

/-- `HashMap::insert`: replace the value of an existing key, else append. -/
def assocInsert {α : Type} : List (String × α) → String → α → List (String × α)
  | [], key, v => [(key, v)]
  | (k, w) :: rest, key, v =>
    if k = key then (k, v) :: rest else (k, w) :: assocInsert rest key v

/-! ## Versions (embedding of `semver::Version` and `semver::VersionReq`)

The `semver` crate is external to the repository; we embed versions as
numeric triples ordered lexicographically (the crate's ordering restricted
to versions without pre-release tags, which is all the code's scenarios
use), and version requirements as the caret / bare-major ranges that
appear in the spec's scenarios. -/

structure Version where
  major : Nat
  minor : Nat
  patch : Nat
deriving DecidableEq, Repr

/-- Lexicographic comparison, as in `semver::Version`'s `Ord`. -/
def Version.cmp (a b : Version) : Ordering :=
  if a.major < b.major then .lt
  else if b.major < a.major then .gt
  else if a.minor < b.minor then .lt
  else if b.minor < a.minor then .gt
  else if a.patch < b.patch then .lt
  else if b.patch < a.patch then .gt
  else .eq

inductive VersionReq where
  /-- `^M.m.p` for `M > 0`: same major, at least the given version.
  (The caret rules for major zero differ in the `semver` crate but are
  not exercised by any claim.) -/
  | caret (v : Version)
  /-- A bare major like `1`, equivalent to `>=1.0.0, <2.0.0`. -/
  | majorOnly (m : Nat)
  /-- An exact version. -/
  | exact (v : Version)
deriving DecidableEq, Repr

def VersionReq.matches : VersionReq → Version → Bool
  | .caret v, w => w.major = v.major && Version.cmp v w ≠ .gt
  | .majorOnly m, w => w.major = m
  | .exact v, w => v = w

/-! ## Package identifiers (src/cli/npm/resolution.rs) -/

structure NpmPackageId where
  name : String
  version : Version
deriving DecidableEq, Repr

structure NpmPackageReq where
  name : String
  versionReq : VersionReq
deriving DecidableEq, Repr

/-! ## Tarball verification (src/cli/npm/tarball.rs)

`verify_tarball` splits the integrity string on the first `-`, accepts
only the `sha512` algorithm, hashes the data with `ring`'s SHA-512,
base64-encodes the digest and compares lowercased checksum strings.
The SHA-512 digest and the base64 encoder come from external crates and
are abstracted as function parameters. -/

inductive TarballError where
  /-- "not implemented integrity kind for {package}: {integrity}" -/
  | unsupportedIntegrityKind (package : NpmPackageId) (integrity : String)
  /-- "not implemented hash function for {package}: {hashKind}" -/
  | unsupportedHashFunction (package : NpmPackageId) (hashKind : String)
  /-- "tarball checksum did not match ... Expected: {expected} Actual: {actual}" -/
  | checksumMismatch (package : NpmPackageId) (expected actual : String)
  /-- An I/O error surfaced by `extract_tarball` (gunzip/untar). -/
  | ioError
deriving DecidableEq, Repr

/-- `str::split_once`: split on the first occurrence of `c`. -/
def splitOnceChars (c : Char) : List Char → Option (List Char × List Char)
  | [] => none
  | x :: xs =>
    if x = c then some ([], xs)
    else (splitOnceChars c xs).map (fun p => (x :: p.1, p.2))

def splitOnce (s : String) (c : Char) : Option (String × String) :=
  (splitOnceChars c s.data).map (fun p => (p.1.asString, p.2.asString))

/-- `str::to_lowercase` (ASCII is all that base64/hex alphabets need). -/
def lowerStr (s : String) : String :=
  (s.data.map Char.toLower).asString

def verifyTarball (sha512 : List Nat → List Nat) (base64encode : List Nat → String)
    (package : NpmPackageId) (data : List Nat) (npmIntegrity : String) :
    Except TarballError Unit :=
  match splitOnce npmIntegrity '-' with
  | none => .error (.unsupportedIntegrityKind package npmIntegrity)
  | some (hashKind, checksum) =>
    if hashKind = "sha512" then
      let expectedChecksum := lowerStr checksum
      let tarballChecksum := lowerStr (base64encode (sha512 data))
      if tarballChecksum ≠ expectedChecksum then
        .error (.checksumMismatch package expectedChecksum tarballChecksum)
      else
        .ok ()
    else .error (.unsupportedHashFunction package hashKind)

/-- Filesystem / network effects performed by the cache and extractor.
`rename` never occurs in the embedded code; it is included so that the
atomic-rename discipline claimed by the spec is expressible. -/
inductive FsOp where
  | download (url : String)
  | extract (targetDir : List String)
  | removeDirAll (dir : List String)
  | rename (fromDir toDir : List String)
deriving DecidableEq, Repr

/-- `verify_and_extract_tarball`: verify, then `extract_tarball` into the
output folder.  The result pairs the outcome with the effect trace; the
trace shows when extraction is attempted. -/
def verifyAndExtractTarball (sha512 : List Nat → List Nat)
    (base64encode : List Nat → String) (package : NpmPackageId)
    (data : List Nat) (npmIntegrity : String) (outputFolder : List String)
    (extractOk : Bool) : Except TarballError Unit × List FsOp :=
  match verifyTarball sha512 base64encode package data npmIntegrity with
  | .error e => (.error e, [])
  | .ok () =>
    if extractOk then (.ok (), [.extract outputFolder])
    else (.error .ioError, [.extract outputFolder])

/-! ## Package cache (src/cli/npm/cache.rs)

Paths are embedded as segment lists.  `ensure_package` is a sequence of
filesystem and network effects whose outcomes are supplied by a
`CacheWorld` oracle; the function returns the result together with the
ordered trace of effects it performed. -/

structure NpmPackageVersionDistInfo where
  tarball : String
  integrity : String
deriving DecidableEq, Repr

/-- `str::split('/')` on a package name (structural, so that paths
compute definitionally). -/
def namePartsAux (acc : List Char) : List Char → List String
  | [] => [acc.reverse.asString]
  | ch :: rest =>
    if ch = '/' then acc.reverse.asString :: namePartsAux [] rest
    else namePartsAux (ch :: acc) rest

def nameParts (name : String) : List String :=
  namePartsAux [] name.data

/-- `NpmCache::package_folder`:
`root / name parts / version / "package"` where scoped names split on `/`. -/
def packageFolder (rootDir : List String) (id : NpmPackageId) : List String :=
  rootDir ++ nameParts id.name ++
    [toString id.version.major ++ "." ++ toString id.version.minor ++ "." ++
      toString id.version.patch, "package"]

inductive DownloadResult where
  | okBytes (bytes : List Nat)
  | notFound404
  | badStatus (status : Nat)
  | transportError
deriving Repr

inductive RemoveResult where
  | ok
  | notFoundKind
  | otherError
deriving Repr

structure CacheWorld where
  folderExists : Bool
  download : DownloadResult
  extractOk : Bool
  remove : RemoveResult

inductive CacheError where
  | tarballNotFound (url : String)
  | badResponse (status : Nat)
  | requestFailed
  | tarball (e : TarballError)
  /-- Verification/extraction failed and then cleanup also failed. -/
  | cleanupFailed (package : NpmPackageId) (original : TarballError)
deriving DecidableEq, Repr

/-- `NpmCache::ensure_package`.  Returns the outcome and the trace of
effects, in order. -/
def ensurePackage (sha512 : List Nat → List Nat) (base64encode : List Nat → String)
    (rootDir : List String) (id : NpmPackageId) (dist : NpmPackageVersionDistInfo)
    (w : CacheWorld) : Except CacheError (List String) × List FsOp :=
  let folder := packageFolder rootDir id
  if w.folderExists then (.ok folder, [])
  else
    match w.download with
    | .notFound404 => (.error (.tarballNotFound dist.tarball), [.download dist.tarball])
    | .badStatus s => (.error (.badResponse s), [.download dist.tarball])
    | .transportError => (.error .requestFailed, [.download dist.tarball])
    | .okBytes bytes =>
      match verifyAndExtractTarball sha512 base64encode id bytes dist.integrity
          folder w.extractOk with
      | (.ok (), ops) => (.ok folder, .download dist.tarball :: ops)
      | (.error e, ops) =>
        match w.remove with
        | .otherError =>
          (.error (.cleanupFailed id e),
            .download dist.tarball :: ops ++ [.removeDirAll folder])
        | _ =>
          (.error (.tarball e),
            .download dist.tarball :: ops ++ [.removeDirAll folder])

/-! ## Registry client (src/cli/npm/registry.rs)

The HTTP layer is an oracle: a `RegistryResponse` describes what the wire
returned for the single request a call may make.  The memoization cache
maps a package name to `Option NpmPackageInfo` (`None` records a 404). -/

structure NpmDependencyEntry where
  bareSpecifier : String
  req : NpmPackageReq
deriving DecidableEq, Repr

/-- `NpmPackageVersionInfo` with the dependency map already passed through
`dependencies_as_references` (the `npm:name@range` alias strings and raw
range strings are parsed by the external `semver` grammar; claims exercise
only the parsed form). -/
structure NpmPackageVersionInfo where
  version : Version
  dist : NpmPackageVersionDistInfo
  dependencies : List NpmDependencyEntry
deriving DecidableEq, Repr

structure NpmPackageInfo where
  name : String
  versions : List NpmPackageVersionInfo
deriving DecidableEq, Repr

abbrev RegistryCache := List (String × Option NpmPackageInfo)

inductive RegistryResponse where
  | okJson (info : NpmPackageInfo)
  | okMalformedJson
  | notFound404
  | badStatus (status : Nat)
  | transportError
deriving Repr

inductive RegistryError where
  | requestFailed
  | badResponse (status : Nat)
  | malformedJson
  /-- "package '{name}' does not exist" -/
  | packageNotExist (name : String)
deriving DecidableEq, Repr

/-- `NpmRegistryApi::maybe_package_info_inner`: one wire request. -/
def maybePackageInfoInner (resp : RegistryResponse) :
    Except RegistryError (Option NpmPackageInfo) :=
  match resp with
  | .transportError => .error .requestFailed
  | .notFound404 => .ok none
  | .badStatus s => .error (.badResponse s)
  | .okMalformedJson => .error .malformedJson
  | .okJson info => .ok (some info)

structure FetchOutcome where
  result : Except RegistryError (Option NpmPackageInfo)
  cache : RegistryCache
  requested : Bool
deriving Repr

/-- `NpmRegistryApi::maybe_package_info`: consult the cache first; on a
miss perform the request and cache a successful (`Some`) or 404 (`None`)
outcome, leaving the cache untouched on error. -/
def maybePackageInfo (cache : RegistryCache) (name : String)
    (resp : RegistryResponse) : FetchOutcome :=
  match lookupStr cache name with
  | some cached => ⟨.ok cached, cache, false⟩
  | none =>
    match maybePackageInfoInner resp with
    | .error e => ⟨.error e, cache, true⟩
    | .ok v => ⟨.ok v, assocInsert cache name v, true⟩

/-- `NpmRegistryApi::package_info`: `maybe_package_info` with `None`
turned into the package-does-not-exist error. -/
def packageInfoCall (cache : RegistryCache) (name : String)
    (resp : RegistryResponse) : FetchOutcome :=
  let out := maybePackageInfo cache name resp
  match out.result with
  | .ok (some info) => ⟨.ok (some info), out.cache, out.requested⟩
  | .ok none => ⟨.error (.packageNotExist name), out.cache, out.requested⟩
  | .error e => ⟨.error e, out.cache, out.requested⟩

/-! ## Version selection (src/cli/npm/resolution.rs,
`get_resolved_package_version_and_info`)

The Rust function folds over the registry's version map (in whatever
order the `HashMap` yields) keeping the best match so far, where a
matching candidate displaces the current best exactly when the current
best compares less-than. -/

inductive ResolveVersionError where
  /-- "could not package '{name}' matching '{req}' (as specified in {parent})" -/
  | versionNotFound (name : String) (req : VersionReq) (parent : Option NpmPackageId)
deriving DecidableEq, Repr

def pickBestVersion (req : VersionReq) :
    Option NpmPackageVersionInfo → List NpmPackageVersionInfo →
    Option NpmPackageVersionInfo
  | best, [] => best
  | best, vi :: rest =>
    if req.matches vi.version then
      let isBestVersion :=
        match best with
        | none => true
        | some b => (Version.cmp b.version vi.version).isLT
      pickBestVersion req (if isBestVersion then some vi else best) rest
    else pickBestVersion req best rest

def getResolvedPackageVersionAndInfo (package : NpmPackageReq)
    (info : NpmPackageInfo) (parent : Option NpmPackageId) :
    Except ResolveVersionError NpmPackageVersionInfo :=
  match pickBestVersion package.versionReq none info.versions with
  | some v => .ok v
  | none => .error (.versionNotFound package.name package.versionReq parent)

/-! ## Node resolver fragments (src/cli/compat/mod.rs)

`exports_resolve` and `conditions_resolve` operate on `serde_json`
values; the JSON model keeps only the shapes the functions inspect.
Both functions contain `todo!()` calls, embedded as the
`.todoUnimplemented` error (a runtime panic in Rust). -/

inductive Json where
  | str (s : String)
  | obj (entries : List (String × Json))
  | other

inductive CompatPanic where
  | todoUnimplemented
deriving DecidableEq, Repr

/-- The condition walk inside `conditions_resolve` for an object value:
take the first condition present in the map; a present non-string value
is `todo!()`, and exhausting the list is `todo!()`. -/
def condLoop (map : List (String × Json)) : List String → Except CompatPanic String
  | [] => .error .todoUnimplemented
  | c :: rest =>
    match lookupStr map c with
    | some (.str s) => .ok s
    | some _ => .error .todoUnimplemented
    | none => condLoop map rest

def conditionsResolve (value : Json) (conditions : List String) :
    Except CompatPanic String :=
  match value with
  | .str s => .ok s
  | .obj map => condLoop map conditions
  | .other => .error .todoUnimplemented

/-- First index of `c` (Rust `str::find` on an ASCII key). -/
def charFind (l : List Char) (c : Char) : Option Nat :=
  match l with
  | [] => none
  | x :: xs => if x = c then some 0 else (charFind xs c).map (· + 1)

/-- Last index of `c` (Rust `str::rfind`). -/
def charRfind (l : List Char) (c : Char) : Option Nat :=
  (charFind l.reverse c).map (fun i => l.length - 1 - i)

/-- The key scan of `exports_resolve`: walk the map's keys in order and
remember the last key that passes the match conditions (the
`pattern_key_compare` specificity test in the source is commented out).
Returns the matched key with the captured star portion. -/
def exportsBestMatch (subpath : List Char) :
    List (String × Json) → Option (String × String) →
    Except CompatPanic (Option (String × String))
  | [], best => .ok best
  | (key, _) :: rest, best =>
    let k := key.data
    match charFind k '*' with
    | none => exportsBestMatch subpath rest best
    | some patternIndex =>
      let keySub := k.take patternIndex
      if keySub.isPrefixOf subpath then
        if subpath.getLast? = some '/' then .error .todoUnimplemented
        else
          let patternTrailer := k.drop (patternIndex + 1)
          if subpath.length > k.length ∧ patternTrailer.isSuffixOf subpath ∧
              charRfind k '*' = some patternIndex then
            let captured :=
              (subpath.take (subpath.length - patternTrailer.length)).drop
                patternIndex
            exportsBestMatch subpath rest (some (key, captured.asString))
          else exportsBestMatch subpath rest best
      else exportsBestMatch subpath rest best

/-- `exports_resolve`: literal key first, else the pattern scan. -/
def exportsResolve (map : List (String × Json)) (subpath : String) :
    Except CompatPanic (Option (String × Option String)) :=
  if (lookupStr map subpath).isSome then .ok (some (subpath, none))
  else
    match exportsBestMatch subpath.data map none with
    | .error p => .error p
    | .ok (some (key, captured)) => .ok (some (key, some captured))
    | .ok none => .ok none

/-- `resolve_package_target_string`: substitute the captured star portion
into the target (Rust `str::replace` replaces every `*`). -/
def resolvePackageTargetString (target : String) (subpath : Option String) :
    String :=
  match subpath with
  | some s => target.replace "*" s
  | none => target

/-! ## CJS→ESM export emission (src/ext/node/analyze.rs) -/

def RESERVED_WORDS : List String :=
  ["abstract", "arguments", "async", "await", "boolean", "break", "byte",
   "case", "catch", "char", "class", "const", "continue", "debugger",
   "default", "delete", "do", "double", "else", "enum", "eval", "export",
   "extends", "false", "final", "finally", "float", "for", "function",
   "get", "goto", "if", "implements", "import", "in", "instanceof", "int",
   "interface", "let", "long", "mod", "native", "new", "null", "package",
   "private", "protected", "public", "return", "set", "short", "static",
   "super", "switch", "synchronized", "this", "throw", "throws",
   "transient", "true", "try", "typeof", "var", "void", "volatile",
   "while", "with", "yield"]

/-- `is_valid_var_decl`: nonempty, ASCII-alphabetic/`_`/`$` first
character, every character ASCII-alphanumeric/`_`/`$`. -/
def isValidVarDecl (name : String) : Bool :=
  match name.data with
  | [] => false
  | first :: _ =>
    if ¬(first.isAlpha || first = '_' || first = '$') then false
    else name.data.all (fun c => c.isAlphanum || c = '_' || c = '$')

def escapeForDoubleQuoteString (text : String) : String :=
  (text.replace "\\" "\\\\").replace "\"" "\\\""

def directExportLine (name initializer : String) : String :=
  "export const " ++ name ++ " = " ++ initializer ++ ";"

def tempVarDeclLine (n : Nat) (initializer : String) : String :=
  "const __deno_export_" ++ toString n ++ "__ = " ++ initializer ++ ";"

def aliasExportLine (n : Nat) (name : String) : String :=
  "export \x7b __deno_export_" ++ toString n ++ "__ as \"" ++
    escapeForDoubleQuoteString name ++ "\" \x7d;"

/-- `add_export`: emit a direct `export const` when the name is a usable
identifier, otherwise bump the temp counter and emit the temp declaration
plus the string-aliased export. -/
def addExport (source : List String) (name initializer : String)
    (tempVarCount : Nat) : List String × Nat :=
  if RESERVED_WORDS.contains name || ¬ isValidVarDecl name then
    (source ++ [tempVarDeclLine (tempVarCount + 1) initializer,
      aliasExportLine (tempVarCount + 1) name], tempVarCount + 1)
  else (source ++ [directExportLine name initializer], tempVarCount)

/-- The export-emission loop of `translate_cjs_to_esm` (analyze.rs lines
142–151): `add_export` for every name except `default`, with the
initializer `mod["<escaped name>"]`, threading the temp counter. -/
def emitExports : List String → List String → Nat → List String × Nat
  | [], source, tempVarCount => (source, tempVarCount)
  | n :: rest, source, tempVarCount =>
    if n = "default" then emitExports rest source tempVarCount
    else
      let out := addExport source n
        ("mod[\"" ++ escapeForDoubleQuoteString n ++ "\"]") tempVarCount
      emitExports rest out.1 out.2

/-! ## Resolution engine (src/cli/npm/resolution.rs)

The Rust `ResolutionContext` is a root holding named children, each an
`Arc<PackageContext>` with a parent pointer, a mutex-guarded child map
and a non-child dependency map.  We embed the context graph as a tree of
`PkgCtx` nodes addressed by the list of package names from the root
(parent pointers become `List.dropLast` on the address), and the
`HashMap` mutations become functional updates at an address.  Fetching
`package_info` is a lookup in a frozen registry; the recursion carries
fuel because the source recursion is not structurally bounded. -/

inductive PkgCtx where
  | mk (version : Version) (info : NpmPackageVersionInfo)
      (children : List (String × PkgCtx))
      (nonChildren : List (String × Version))

def PkgCtx.version : PkgCtx → Version
  | .mk v _ _ _ => v

def PkgCtx.info : PkgCtx → NpmPackageVersionInfo
  | .mk _ i _ _ => i

def PkgCtx.children : PkgCtx → List (String × PkgCtx)
  | .mk _ _ c _ => c

def PkgCtx.nonChildren : PkgCtx → List (String × Version)
  | .mk _ _ _ nc => nc

def PkgCtx.setChildren : PkgCtx → List (String × PkgCtx) → PkgCtx
  | .mk v i _ nc, cs => .mk v i cs nc

def PkgCtx.setNonChildren : PkgCtx → List (String × Version) → PkgCtx
  | .mk v i cs _, nc => .mk v i cs nc

/-- Look up the context at an address (list of names from the root). -/
def getCtxFrom : List (String × PkgCtx) → List String → Option PkgCtx
  | _, [] => none
  | cs, n :: rest =>
    match lookupStr cs n, rest with
    | none, _ => none
    | some c, [] => some c
    | some c, r :: rs => getCtxFrom c.children (r :: rs)

/-- `ResolutionContext::get_dependency_version`: the root consults its
children; a package context consults its children, then its non-child
dependencies. -/
def getDependencyVersion (root : List (String × PkgCtx))
    (ctxPath : List String) (name : String) : Option Version :=
  match ctxPath with
  | [] => (lookupStr root name).map PkgCtx.version
  | _ :: _ =>
    match getCtxFrom root ctxPath with
    | none => none
    | some c =>
      match lookupStr c.children name with
      | some child => some child.version
      | none => lookupStr c.nonChildren name

inductive ResolveAction where
  /-- `ResolveAction::None`: already in the current context. -/
  | alreadyExists
  | insertNonChild (path : List String) (version : Version)
  | insertChild (path : List String)
deriving DecidableEq, Repr

inductive ResolutionError where
  /-- "cannot import {package} because it's not compatible with previous
  resolved version {existing}" -/
  | incompatibleVersion (package : NpmPackageReq) (existing : Version)
  /-- `current.into_package_context().unwrap()` panics when the matching
  ancestor is the root context. -/
  | unwrapNoneOnRoot
  /-- `package_info`: "package '{name}' does not exist". -/
  | packageNotExist (name : String)
  | versionError (e : ResolveVersionError)
  | fuelExhausted
deriving DecidableEq, Repr

/-- The ancestor walk of `resolve` (resolution.rs lines 376–411):
starting from `current`, find a context that already has a version for
the name; a compatible hit in the starting context is `None`, a
compatible hit in a proper ancestor is `InsertNonChild` there, an
incompatible hit in the starting context is an error, an incompatible hit
in an ancestor is `InsertChild` into that ancestor, and a miss everywhere
is `InsertChild` into the root. -/
def resolveWalk (root : List (String × PkgCtx)) (package : NpmPackageReq) :
    List String → Bool → Except ResolutionError ResolveAction
  | revCurrent, isFirst =>
    match getDependencyVersion root revCurrent.reverse package.name with
    | some depVersion =>
      if package.versionReq.matches depVersion then
        if isFirst then .ok .alreadyExists
        else
          match revCurrent with
          | [] => .error .unwrapNoneOnRoot
          | _ :: _ => .ok (.insertNonChild revCurrent.reverse depVersion)
      else
        if isFirst then .error (.incompatibleVersion package depVersion)
        else .ok (.insertChild revCurrent.reverse)
    | none =>
      match revCurrent with
      | [] => .ok (.insertChild [])
      | _ :: rest => resolveWalk root package rest false

/-- `resolve` entered from the context at `ctxPath`.  The walk carries
the address reversed so that moving to the parent (`dropLast` on the
address) is dropping the head. -/
def resolveCtx (root : List (String × PkgCtx)) (package : NpmPackageReq)
    (ctxPath : List String) : Except ResolutionError ResolveAction :=
  resolveWalk root package ctxPath.reverse true

/-- Apply `f` to the context at a (nonempty) address. -/
def modifyCtxAt : List String → (PkgCtx → PkgCtx) →
    List (String × PkgCtx) → List (String × PkgCtx)
  | [], _, cs => cs
  | n :: rest, f, cs =>
    cs.map (fun e =>
      if e.1 = n then
        match rest with
        | [] => (e.1, f e.2)
        | _ :: _ => (e.1, e.2.setChildren (modifyCtxAt rest f e.2.children))
      else e)

/-- `ResolutionContext::insert_child`: insert into the children map of
the context at `p` (the root's map when `p = []`), replacing any child
already stored under that name. -/
def insertChildCtx (root : List (String × PkgCtx)) (p : List String)
    (name : String) (ctx : PkgCtx) : List (String × PkgCtx) :=
  match p with
  | [] => assocInsert root name ctx
  | _ :: _ =>
    modifyCtxAt p (fun c => c.setChildren (assocInsert c.children name ctx)) root

def insertNonChildCtx (root : List (String × PkgCtx)) (p : List String)
    (name : String) (v : Version) : List (String × PkgCtx) :=
  match p with
  | [] => root
  | _ :: _ =>
    modifyCtxAt p
      (fun c => c.setNonChildren (assocInsert c.nonChildren name v)) root

/-- Insertion sort of dependency entries by bare specifier ("iterate over
the dependencies in alphabetical order"; the source's `sort_by` key). -/
def insertDepSorted (d : NpmDependencyEntry) :
    List NpmDependencyEntry → List NpmDependencyEntry
  | [] => [d]
  | e :: rest =>
    if d.bareSpecifier ≤ e.bareSpecifier then d :: e :: rest
    else e :: insertDepSorted d rest

def sortDeps (l : List NpmDependencyEntry) : List NpmDependencyEntry :=
  l.foldr insertDepSorted []

def insertReqSorted (q : NpmPackageReq) :
    List NpmPackageReq → List NpmPackageReq
  | [] => [q]
  | e :: rest =>
    if q.name ≤ e.name then q :: e :: rest else e :: insertReqSorted q rest

/-- "multiple packages are resolved on alphabetical order" -/
def sortReqs (l : List NpmPackageReq) : List NpmPackageReq :=
  l.foldr insertReqSorted []

/-! `ResolutionContext::add_package` (and its loop over the resolved
version's dependencies).  On `InsertChild`, fetch the registry info, pick
the best version, insert the new child at the designated address, then
add each dependency from the child's address.  The source recursion is
not structurally bounded, so the embedding carries fuel. -/

mutual

def addPackage (api : List (String × NpmPackageInfo)) :
    Nat → List (String × PkgCtx) → List String → NpmPackageReq →
    Except ResolutionError (List (String × PkgCtx))
  | 0, _, _, _ => .error .fuelExhausted
  | fuel + 1, root, ctxPath, package =>
    match resolveCtx root package ctxPath with
    | .error e => .error e
    | .ok .alreadyExists => .ok root
    | .ok (.insertNonChild p v) => .ok (insertNonChildCtx root p package.name v)
    | .ok (.insertChild p) =>
      match lookupStr api package.name with
      | none => .error (.packageNotExist package.name)
      | some info =>
        match getResolvedPackageVersionAndInfo package info none with
        | .error e => .error (.versionError e)
        | .ok vi =>
          let child := PkgCtx.mk vi.version vi [] []
          let root1 := insertChildCtx root p package.name child
          addDeps api fuel root1 (p ++ [package.name]) (sortDeps vi.dependencies)
termination_by fuel _ _ _ => (fuel, 0)

def addDeps (api : List (String × NpmPackageInfo)) :
    Nat → List (String × PkgCtx) → List String → List NpmDependencyEntry →
    Except ResolutionError (List (String × PkgCtx))
  | _, root, _, [] => .ok root
  | fuel, root, childPath, d :: rest =>
    match addPackage api fuel root childPath d.req with
    | .error e => .error e
    | .ok root1 => addDeps api fuel root1 childPath rest
termination_by fuel _ _ deps => (fuel, deps.length + 1)

end

/-- `NpmResolution::add_packages`: sort the requirements by name and add
each from the root context. -/
def addPackagesLoop (api : List (String × NpmPackageInfo)) (fuel : Nat) :
    List (String × PkgCtx) → List NpmPackageReq →
    Except ResolutionError (List (String × PkgCtx))
  | root, [] => .ok root
  | root, q :: rest =>
    match addPackage api fuel root [] q with
    | .error e => .error e
    | .ok root1 => addPackagesLoop api fuel root1 rest

def addPackages (api : List (String × NpmPackageInfo)) (fuel : Nat)
    (reqs : List NpmPackageReq) :
    Except ResolutionError (List (String × PkgCtx)) :=
  addPackagesLoop api fuel [] (sortReqs reqs)

/-! ## Stored snapshots (src/cli/npm/resolution.rs,
`ResolutionContext::as_stored` and `StoredNpmResolution`) -/

structure NpmResolutionPackage where
  id : NpmPackageId
  dist : NpmPackageVersionDistInfo
  dependencies : List (String × NpmPackageId)
deriving DecidableEq, Repr

structure StoredNpmResolution where
  topLevelPackages : List (String × NpmPackageId)
  packages : List (NpmPackageId × NpmResolutionPackage)
deriving DecidableEq, Repr

def lookupId {α : Type} : List (NpmPackageId × α) → NpmPackageId → Option α
  | [], _ => none
  | (k, v) :: rest, key => if k = key then some v else lookupId rest key

/-- The dependency map recorded for a context: its children's ids keyed
by name. -/
def childIds (cs : List (String × PkgCtx)) : List (String × NpmPackageId) :=
  cs.map (fun e => (e.1, ⟨e.1, e.2.version⟩))

theorem PkgCtx.sizeOf_children_lt (c : PkgCtx) : sizeOf c.children < sizeOf c := by
  cases c with
  | mk v i ch nc =>
    simp [PkgCtx.children]
    omega

/-- `populate_packages`: walk the children; for each id not yet recorded,
record its resolution package (dependencies = its children's ids) and
recurse into its children. -/
def populatePackages :
    List (String × PkgCtx) → List (NpmPackageId × NpmResolutionPackage) →
    List (NpmPackageId × NpmResolutionPackage)
  | [], acc => acc
  | (name, c) :: rest, acc =>
    let id : NpmPackageId := ⟨name, c.version⟩
    let acc1 :=
      if (lookupId acc id).isSome then acc
      else populatePackages c.children
        (acc ++ [(id, ⟨id, c.info.dist, childIds c.children⟩)])
    populatePackages rest acc1
termination_by cs _ => sizeOf cs
decreasing_by
  · have h := PkgCtx.sizeOf_children_lt c
    simp
    omega
  · simp

/-- `as_stored`: top-level bindings from the root's children, packages
from the populate walk. -/
def asStored (root : List (String × PkgCtx)) : StoredNpmResolution :=
  { topLevelPackages := root.map (fun e => (e.1, ⟨e.1, e.2.version⟩)),
    packages := populatePackages root [] }

inductive ResolvePackageError where
  /-- "could not find package '{name}'" -/
  | packageNotFound (name : String)
  /-- "could not find package '{name}' referenced by '{referrer}'" -/
  | depNotFound (name : String) (referrer : NpmPackageId)
  /-- "could not find referrer package '{referrer}'" -/
  | referrerNotFound (referrer : NpmPackageId)
  /-- Models the `self.packages.get(..).unwrap()` panic on an id that is
  not a key of `packages`. -/
  | internalUnwrapFailure
deriving DecidableEq, Repr

/-- `StoredNpmResolution::resolve_package`. -/
def resolvePackage (st : StoredNpmResolution) (name : String)
    (referrer : Option NpmPackageId) :
    Except ResolvePackageError NpmResolutionPackage :=
  match referrer with
  | some r =>
    match lookupId st.packages r with
    | none => .error (.referrerNotFound r)
    | some referrerPackage =>
      match lookupStr referrerPackage.dependencies name with
      | none => .error (.depNotFound name r)
      | some depId =>
        match lookupId st.packages depId with
        | some p => .ok p
        | none => .error .internalUnwrapFailure
  | none =>
    match lookupStr st.topLevelPackages name with
    | none => .error (.packageNotFound name)
    | some id =>
      match lookupId st.packages id with
      | some p => .ok p
      | none => .error .internalUnwrapFailure

/-! ## Reexport expansion of the CJS→ESM translator
(src/ext/node/analyze.rs, `NodeCodeTranslator::analyze_reexports`)

The module graph is finite data: analyzer results keyed by URL, and a
resolver mapping `(referrer, specifier)` pairs to URLs (an absent pair is
a resolution error, an absent URL a load error).  The `FuturesUnordered`
fan-out is embedded as a FIFO worklist — completion order changes only
the order of accumulated errors and exports, which the claims do not
depend on.  `handled_reexports` is the visited list, seeded with the
entry specifier; a URL is enqueued only when newly inserted there. -/

inductive CjsAnalysisE where
  | esm
  | cjs (exports : List String) (reexports : List String)

inductive TranslateError where
  /-- A failed `node_resolver.resolve` for a reexport. -/
  | resolveError (reexport referrer : String)
  /-- "Could not load '{reexport}' ({specifier}) referenced from {referrer}" -/
  | loadError (reexport specifier referrer : String)
  /-- "Cannot require ES module '{specifier}' from '{referrer}'" -/
  | cannotRequireEsm (specifier referrer : String)
deriving DecidableEq, Repr

structure QItem where
  url : String
  referrer : String
  reexport : String
deriving DecidableEq, Repr

def lookupResolve : List ((String × String) × String) → String → String →
    Option String
  | [], _, _ => none
  | (k, v) :: rest, referrer, spec =>
    if k = (referrer, spec) then some v else lookupResolve rest referrer spec

/-- The `handle_reexports` closure: resolve each reexport of `referrer`;
record an error on failure, skip already-visited URLs, and otherwise mark
visited and enqueue an analysis. -/
def handleReexports (rmap : List ((String × String) × String))
    (referrer : String) :
    List String → List String → List QItem → List TranslateError →
    List String × List QItem × List TranslateError
  | [], visited, newItems, errors => (visited, newItems, errors)
  | rx :: rest, visited, newItems, errors =>
    match lookupResolve rmap referrer rx with
    | none =>
      handleReexports rmap referrer rest visited newItems
        (errors ++ [.resolveError rx referrer])
    | some url =>
      if url ∈ visited then
        handleReexports rmap referrer rest visited newItems errors
      else
        handleReexports rmap referrer rest (url :: visited)
          (newItems ++ [⟨url, referrer, rx⟩]) errors

/-- All URLs the resolver can ever produce (the finite universe of
enqueueable analysis targets). -/
def univList (rmap : List ((String × String) × String)) : List String :=
  rmap.map (fun e => e.2)

/-- Unvisited portion of the URL universe, for the termination measure. -/
def countNV (univ visited : List String) : Nat :=
  (univ.filter (fun u => decide (u ∉ visited))).length

theorem lookupResolve_mem_univ (rmap : List ((String × String) × String))
    (referrer spec url : String)
    (h : lookupResolve rmap referrer spec = some url) : url ∈ univList rmap := by
  induction rmap with
  | nil => simp [lookupResolve] at h
  | cons e rest ih =>
    rw [lookupResolve] at h
    by_cases he : e.1 = (referrer, spec)
    · simp [he] at h
      simp [univList, h]
    · simp [he] at h
      have := ih h
      simp [univList] at this ⊢
      exact Or.inr this

theorem countNV_mono_cons (univ visited : List String) (url : String) :
    countNV univ (url :: visited) ≤ countNV univ visited := by
  apply List.Sublist.length_le
  apply List.monotone_filter_right
  intro a ha
  simp at ha ⊢
  exact ha.2

theorem countNV_insert_lt (univ visited : List String) (url : String)
    (hu : url ∈ univ) (hv : url ∉ visited) :
    countNV univ (url :: visited) + 1 ≤ countNV univ visited := by
  induction univ with
  | nil => simp at hu
  | cons x xs ih =>
    by_cases hx : x = url
    · subst hx
      have h1 : ¬ (x ∉ x :: visited) := by simp
      have h2 : x ∉ visited := hv
      simp only [countNV, List.filter_cons]
      simp only [h2, decide_not, decide_True, not_true_eq_false,
        decide_False]
      simp
      have := countNV_mono_cons xs visited x
      simpa [countNV] using this
    · have hxe : (x ∉ url :: visited) ↔ (x ∉ visited) := by
        simp [hx]
      have hu' : url ∈ xs := by
        cases hu with
        | head => exact absurd rfl hx
        | tail _ h => exact h
      simp only [countNV, List.filter_cons]
      by_cases hxv : x ∈ visited
      · have : x ∈ url :: visited := List.mem_cons_of_mem _ hxv
        simp only [hxv, this, not_true_eq_false, decide_False]
        simpa [countNV] using ih hu'
      · have : x ∉ url :: visited := hxe.mpr hxv
        simp only [hxv, this, not_false_eq_true, decide_True]
        simp
        have := ih hu'
        simp [countNV] at this ⊢
        omega

/-- Combined bookkeeping facts about one `handle_reexports` pass: the
unvisited-count-plus-queue measure does not grow, the visited list only
grows, every produced item is an old one or a freshly visited URL, and
freshly enqueued URLs are distinct and visited. -/
theorem handleReexports_spec (rmap : List ((String × String) × String))
    (referrer : String) :
    ∀ (rex visited : List String) (newItems : List QItem)
      (errors : List TranslateError),
    countNV (univList rmap)
        (handleReexports rmap referrer rex visited newItems errors).1 +
        (handleReexports rmap referrer rex visited newItems errors).2.1.length ≤
      countNV (univList rmap) visited + newItems.length ∧
    (∀ x, x ∈ visited →
      x ∈ (handleReexports rmap referrer rex visited newItems errors).1) ∧
    (∀ q, q ∈ (handleReexports rmap referrer rex visited newItems errors).2.1 →
      q ∈ newItems ∨ (q.url ∉ visited ∧
        q.url ∈ (handleReexports rmap referrer rex visited newItems errors).1)) ∧
    ((∀ q ∈ newItems, q.url ∈ visited) →
      ((newItems.map QItem.url).Nodup →
        (((handleReexports rmap referrer rex visited newItems errors).2.1.map
          QItem.url).Nodup)) ∧
      (∀ q ∈ (handleReexports rmap referrer rex visited newItems errors).2.1,
        q.url ∈ (handleReexports rmap referrer rex visited newItems errors).1)) := by
  intro rex
  induction rex with
  | nil =>
    intro visited newItems errors
    refine ⟨by simp [handleReexports], ?_, ?_, ?_⟩
    · intro x hx
      simpa [handleReexports] using hx
    · intro q hq
      simp [handleReexports] at hq
      exact Or.inl hq
    · intro hall
      refine ⟨fun h => by simpa [handleReexports] using h, ?_⟩
      intro q hq
      simp [handleReexports] at hq
      exact hall q hq
  | cons rx rest ih =>
    intro visited newItems errors
    rw [handleReexports]
    cases hres : lookupResolve rmap referrer rx with
    | none => exact ih visited newItems (errors ++ [.resolveError rx referrer])
    | some url =>
      by_cases hvis : url ∈ visited
      · simp only [hvis, if_true]
        exact ih visited newItems errors
      · simp only [hvis, if_false]
        obtain ⟨hmeas, hmono, hchar, hnodup⟩ :=
          ih (url :: visited) (newItems ++ [⟨url, referrer, rx⟩]) errors
        have hunv : url ∈ univList rmap :=
          lookupResolve_mem_univ rmap referrer rx url hres
        have hlt := countNV_insert_lt (univList rmap) visited url hunv hvis
        refine ⟨by simp at hmeas; omega, ?_, ?_, ?_⟩
        · intro x hx
          exact hmono x (List.mem_cons_of_mem _ hx)
        · intro q hq
          rcases hchar q hq with hold | hnew
          · rcases List.mem_append.mp hold with h1 | h1
            · exact Or.inl h1
            · simp at h1
              subst h1
              exact Or.inr ⟨hvis, hmono url (List.mem_cons_self _ _)⟩
          · refine Or.inr ⟨fun hc => hnew.1 (List.mem_cons_of_mem _ hc), hnew.2⟩
        · intro hall
          have hall' : ∀ q ∈ newItems ++ [(⟨url, referrer, rx⟩ : QItem)],
              q.url ∈ url :: visited := by
            intro q hq
            rcases List.mem_append.mp hq with h1 | h1
            · exact List.mem_cons_of_mem _ (hall q h1)
            · simp at h1
              subst h1
              exact List.mem_cons_self _ _
          obtain ⟨hnd, hin⟩ := hnodup hall'
          refine ⟨?_, hin⟩
          intro hnd0
          apply hnd
          simp [List.nodup_append, hnd0]
          intro q hq hq2
          exact hvis (hq2 ▸ hall q hq)

structure ReexportOut where
  analyzed : List String
  exports : List String
  errors : List TranslateError

/-- The drain loop over the analysis worklist (`while let Some(..) =
analyze_futures.next().await`): pop an item, record its analysis (or an
error), and enqueue the newly visited reexports of a CJS result.
`analyzed` records the URLs handed to the analyzer, in order. -/
def runLoop (g : List (String × CjsAnalysisE))
    (rmap : List ((String × String) × String)) :
    List QItem → List String → List String → List TranslateError →
    List String → ReexportOut
  | [], _, exports, errors, analyzed => ⟨analyzed, exports, errors⟩
  | q :: rest, visited, exports, errors, analyzed =>
    match lookupStr g q.url with
    | none =>
      runLoop g rmap rest visited exports
        (errors ++ [.loadError q.reexport q.url q.referrer])
        (analyzed ++ [q.url])
    | some .esm =>
      runLoop g rmap rest visited exports
        (errors ++ [.cannotRequireEsm q.url q.referrer]) (analyzed ++ [q.url])
    | some (.cjs exps rex) =>
      match hHR : handleReexports rmap q.url rex visited [] [] with
      | (visited1, newItems, errs1) =>
        runLoop g rmap (rest ++ newItems) visited1
          (exports ++ exps.filter (fun e => e ≠ "default")) (errors ++ errs1)
          (analyzed ++ [q.url])
termination_by queue visited _ _ _ =>
  countNV (univList rmap) visited + queue.length
decreasing_by
  · simp
  · simp
  · have h := (handleReexports_spec rmap q.url rex visited [] []).1
    rw [hHR] at h
    simp at h ⊢
    omega

/-- `analyze_reexports`: seed the visited set with the entry specifier,
resolve and schedule the entry's reexports, then drain the worklist. -/
def analyzeReexports (g : List (String × CjsAnalysisE))
    (rmap : List ((String × String) × String)) (entry : String)
    (reexports : List String) (exports0 : List String) : ReexportOut :=
  match handleReexports rmap entry reexports [entry] [] [] with
  | (vis1, items, errs) => runLoop g rmap items vis1 exports0 errs []

/-! ## Concrete scenario data

Scenario S2 of the design: resolve `[a@1, b@1]` where `a@1 → c@^1` and
`b@1 → c@^2` against a registry holding `c@1.0.0` and `c@2.0.0`. -/

def distA : NpmPackageVersionDistInfo := ⟨"https://r/a-1.0.0.tgz", "sha512-aa"⟩

def distB : NpmPackageVersionDistInfo := ⟨"https://r/b-1.0.0.tgz", "sha512-bb"⟩

def distC1 : NpmPackageVersionDistInfo := ⟨"https://r/c-1.0.0.tgz", "sha512-c1"⟩

def distC2 : NpmPackageVersionDistInfo := ⟨"https://r/c-2.0.0.tgz", "sha512-c2"⟩

def apiS2 : List (String × NpmPackageInfo) :=
  [("a", ⟨"a", [⟨⟨1, 0, 0⟩, distA, [⟨"c", ⟨"c", .caret ⟨1, 0, 0⟩⟩⟩]⟩]⟩),
   ("b", ⟨"b", [⟨⟨1, 0, 0⟩, distB, [⟨"c", ⟨"c", .caret ⟨2, 0, 0⟩⟩⟩]⟩]⟩),
   ("c", ⟨"c", [⟨⟨1, 0, 0⟩, distC1, []⟩, ⟨⟨2, 0, 0⟩, distC2, []⟩]⟩)]

def reqsS2 : List NpmPackageReq := [⟨"a", .majorOnly 1⟩, ⟨"b", .majorOnly 1⟩]

/-- The stored snapshot produced for scenario S2 (when resolution
succeeds). -/
def runS2 : Option StoredNpmResolution :=
  match addPackages apiS2 10 reqsS2 with
  | .ok root => some (asStored root)
  | .error _ => none

/-- What the engine actually stores for S2: `c@1.0.0` has been displaced
by `c@2.0.0` in the root's child map, `c` appears as a *top-level*
binding, and neither `a` nor `b` records a dependency edge. -/
def storedS2 : StoredNpmResolution :=
  { topLevelPackages :=
      [("a", ⟨"a", ⟨1, 0, 0⟩⟩), ("c", ⟨"c", ⟨2, 0, 0⟩⟩),
       ("b", ⟨"b", ⟨1, 0, 0⟩⟩)],
    packages :=
      [(⟨"a", ⟨1, 0, 0⟩⟩, ⟨⟨"a", ⟨1, 0, 0⟩⟩, distA, []⟩),
       (⟨"c", ⟨2, 0, 0⟩⟩, ⟨⟨"c", ⟨2, 0, 0⟩⟩, distC2, []⟩),
       (⟨"b", ⟨1, 0, 0⟩⟩, ⟨⟨"b", ⟨1, 0, 0⟩⟩, distB, []⟩)] }

def FsOp.isRename : FsOp → Bool
  | .rename _ _ => true
  | _ => false

/-- A dummy digest function (the digest is abstract in the embedding). -/
def sha0 : List Nat → List Nat := fun _ => []

/-- A dummy base64 encoder producing `"AA"`. -/
def b640 : List Nat → String := fun _ => "AA"

def id8 : NpmPackageId := ⟨"chalk", ⟨5, 0, 1⟩⟩

def dist8 : NpmPackageVersionDistInfo :=
  ⟨"https://r/chalk-5.0.1.tgz", "sha512-aa"⟩

def dist8sha1 : NpmPackageVersionDistInfo :=
  ⟨"https://r/chalk-5.0.1.tgz", "sha1-aa"⟩

/-- S1 registry data: `chalk` with versions `5.0.0, 5.1.0, 4.9.0`. -/
def chalkVi510 : NpmPackageVersionInfo := ⟨⟨5, 1, 0⟩, dist8, []⟩

def chalkInfo : NpmPackageInfo :=
  ⟨"chalk", [⟨⟨5, 0, 0⟩, dist8, []⟩, chalkVi510, ⟨⟨4, 9, 0⟩, dist8, []⟩]⟩

/-- First-matching-key lookup after an insert finds the inserted value. -/
theorem lookupStr_assocInsert_self {α : Type} (l : List (String × α))
    (k : String) (v : α) : lookupStr (assocInsert l k v) k = some v := by
  induction l with
  | nil => simp [assocInsert, lookupStr]
  | cons e rest ih =>
    by_cases he : e.1 = k
    · simp [assocInsert, he, lookupStr]
    · cases e with
      | mk k0 v0 =>
        simp at he
        simp [assocInsert, he, lookupStr, ih]

/-! # Claim theorems -/

/-- C1: counter-evaluation.  Resolving S2 (`[a@1, b@1]`, `a@1 → c@^1`,
`b@1 → c@^2`, registry has `c@1.0.0` and `c@2.0.0`) does NOT retain a
distinct `PackageId` per chosen version of `c`: the later incompatible
request `c@^2` is inserted into the same root children map
(`resolve` returns `InsertChild` of the ancestor holding the conflicting
version, and `insert_child` replaces the entry under the name), so
`c@1.0.0` is displaced, and neither `a@1` nor `b@1` records any
dependency edge for `c` (hoisted resolutions are never written into the
parent's dependency map). -/
theorem c1_conflicting_requirement_displaces_earlier_choice :
    runS2 = some storedS2 ∧
    lookupId storedS2.packages ⟨"c", ⟨1, 0, 0⟩⟩ = none ∧
    lookupId storedS2.packages ⟨"c", ⟨2, 0, 0⟩⟩ ≠ none ∧
    (lookupId storedS2.packages ⟨"a", ⟨1, 0, 0⟩⟩).map
      NpmResolutionPackage.dependencies = some [] ∧
    (lookupId storedS2.packages ⟨"b", ⟨1, 0, 0⟩⟩).map
      NpmResolutionPackage.dependencies = some [] ∧
    lookupStr storedS2.topLevelPackages "c" = some ⟨"c", ⟨2, 0, 0⟩⟩ := by
  refine ⟨?_, rfl, by decide, rfl, rfl, rfl⟩
  simp [runS2, addPackages, addPackagesLoop, addPackage, addDeps, sortReqs,
    insertReqSorted, sortDeps, insertDepSorted, resolveCtx, resolveWalk,
    getDependencyVersion, getCtxFrom, lookupStr, apiS2, reqsS2,
    getResolvedPackageVersionAndInfo, pickBestVersion, VersionReq.matches,
    Version.cmp, insertChildCtx, insertNonChildCtx, modifyCtxAt, assocInsert,
    asStored, populatePackages, lookupId, childIds, storedS2, distA, distB,
    distC1, distC2, PkgCtx.children, PkgCtx.version, PkgCtx.info,
    PkgCtx.setChildren, PkgCtx.setNonChildren]

/-- C5: counter-evaluation.  With keys `"./feat/*"` and `"./feat/x/*"`
and subpath `"./feat/x/y"`, the scan returns `"./feat/*"` in *both* key
orders (the longer key fails the strict `subpath.len() > key.len()`
length test at this subpath), and with subpath `"./feat/x/yz"` the result
depends on the key order — the *last* matching key wins, since the
`pattern_key_compare` specificity test is commented out.  The claim's
"most specific key wins regardless of iteration order" is false. -/
theorem c5_exports_pattern_last_match_wins :
    exportsResolve [("./feat/*", Json.other), ("./feat/x/*", Json.other)]
      "./feat/x/y" = .ok (some ("./feat/*", some "x/y")) ∧
    exportsResolve [("./feat/x/*", Json.other), ("./feat/*", Json.other)]
      "./feat/x/y" = .ok (some ("./feat/*", some "x/y")) ∧
    exportsResolve [("./feat/x/*", Json.other), ("./feat/*", Json.other)]
      "./feat/x/yz" = .ok (some ("./feat/*", some "x/yz")) ∧
    exportsResolve [("./feat/*", Json.other), ("./feat/x/*", Json.other)]
      "./feat/x/yz" = .ok (some ("./feat/x/*", some "yz")) := by
  exact ⟨rfl, rfl, rfl, rfl⟩

/-- C6: evaluation.  The condition walk does return the first condition
present whose value is a string (`{require:"a", default:"b"}` under
`["deno","require","default"]` gives `"a"`), but a nested condition
object is NOT followed recursively and an exhausted condition list does
NOT produce an `UnresolvedExport` error: both paths hit `todo!()`
(a panic), embedded as `.todoUnimplemented`. -/
theorem c6_conditions_first_string_but_todo_on_nested_and_no_match :
    conditionsResolve
        (Json.obj [("require", Json.str "a"), ("default", Json.str "b")])
        ["deno", "require", "default"] = .ok "a" ∧
    conditionsResolve (Json.obj [("deno", Json.obj [("default", Json.str "x")])])
        ["deno", "require", "default"] = .error .todoUnimplemented ∧
    conditionsResolve (Json.obj [("node", Json.str "n")])
        ["deno", "require", "default"] = .error .todoUnimplemented := by
  exact ⟨rfl, rfl, rfl⟩

/-- C3: tarball integrity verification succeeds iff the integrity string
splits on its first `-` into `sha512` and a checksum whose lowercasing
equals the lowercased base64 encoding of the SHA-512 digest of the data;
a string with no `-` is rejected as an unsupported integrity kind, any
other algorithm is rejected as an unsupported hash function, a digest
mismatch is rejected with an error carrying the expected and actual
checksums, and extraction is attempted exactly when verification
succeeded. -/
theorem c3_integrity_verification_strictness
    (sha512 : List Nat → List Nat) (base64encode : List Nat → String)
    (package : NpmPackageId) (data : List Nat) (integrity : String)
    (folder : List String) (extractOk : Bool) :
    (verifyTarball sha512 base64encode package data integrity = .ok () ↔
      ∃ chk, splitOnce integrity '-' = some ("sha512", chk) ∧
        lowerStr (base64encode (sha512 data)) = lowerStr chk) ∧
    (splitOnce integrity '-' = none →
      verifyTarball sha512 base64encode package data integrity =
        .error (.unsupportedIntegrityKind package integrity)) ∧
    (∀ kind chk, splitOnce integrity '-' = some (kind, chk) →
      kind ≠ "sha512" →
      verifyTarball sha512 base64encode package data integrity =
        .error (.unsupportedHashFunction package kind)) ∧
    (∀ chk, splitOnce integrity '-' = some ("sha512", chk) →
      lowerStr (base64encode (sha512 data)) ≠ lowerStr chk →
      verifyTarball sha512 base64encode package data integrity =
        .error (.checksumMismatch package (lowerStr chk)
          (lowerStr (base64encode (sha512 data))))) ∧
    (verifyTarball sha512 base64encode package data integrity = .ok () →
      (verifyAndExtractTarball sha512 base64encode package data integrity
        folder extractOk).2 = [.extract folder]) ∧
    (∀ e, verifyTarball sha512 base64encode package data integrity = .error e →
      (verifyAndExtractTarball sha512 base64encode package data integrity
        folder extractOk).2 = []) := by
  cases hsp : splitOnce integrity '-' with
  | none =>
    refine ⟨by simp [verifyTarball, hsp], fun _ => by simp [verifyTarball, hsp],
      ?_, ?_, ?_, ?_⟩
    · intro kind chk h
      simp at h
    · intro chk h
      simp at h
    · intro h
      simp [verifyTarball, hsp] at h
    · intro e _
      simp [verifyAndExtractTarball, verifyTarball, hsp]
  | some p =>
    obtain ⟨kind, chk⟩ := p
    by_cases hk : kind = "sha512"
    · subst hk
      by_cases hc : lowerStr (base64encode (sha512 data)) = lowerStr chk
      · refine ⟨?_, ?_, ?_, ?_, ?_, ?_⟩
        · simp [verifyTarball, hsp, hc]
        · intro h
          simp at h
        · intro kind' chk' h hne
          simp at h
          exact absurd h.1.symm hne
        · intro chk' h hne
          simp at h
          rw [h] at hc
          exact absurd hc hne
        · intro _
          cases extractOk <;>
            simp [verifyAndExtractTarball, verifyTarball, hsp, hc]
        · intro e he
          simp [verifyTarball, hsp, hc] at he
      · refine ⟨?_, ?_, ?_, ?_, ?_, ?_⟩
        · simp [verifyTarball, hsp, hc]
        · intro h
          simp at h
        · intro kind' chk' h hne
          simp at h
          exact absurd h.1.symm hne
        · intro chk' h _
          simp at h
          subst h
          simp [verifyTarball, hsp, hc]
        · intro h
          simp [verifyTarball, hsp, hc] at h
        · intro e _
          simp [verifyAndExtractTarball, verifyTarball, hsp, hc]
    · refine ⟨?_, ?_, ?_, ?_, ?_, ?_⟩
      · simp [verifyTarball, hsp, hk]
      · intro h
        simp at h
      · intro kind' chk' h _
        simp at h
        rw [← h.1]
        simp [verifyTarball, hsp, hk]
      · intro chk' h
        simp at h
        exact absurd h.1 hk
      · intro h
        simp [verifyTarball, hsp, hk] at h
      · intro e _
        simp [verifyAndExtractTarball, verifyTarball, hsp, hk]

/-- C3 witness: concrete instantiations of the characterization — a
well-formed `sha512-aa` integrity verifies (and extraction is attempted
into the target), `sha1-aa` is rejected, and a dash-less string is
rejected. -/
theorem c3_integrity_verification_strictness_witness :
    verifyTarball sha0 b640 id8 [] "sha512-aa" = .ok () ∧
    (verifyAndExtractTarball sha0 b640 id8 [] "sha512-aa" ["t"] true).2 =
      [.extract ["t"]] ∧
    verifyTarball sha0 b640 id8 [] "sha1-aa" =
      .error (.unsupportedHashFunction id8 "sha1") ∧
    verifyTarball sha0 b640 id8 [] "nodash" =
      .error (.unsupportedIntegrityKind id8 "nodash") :=
  ⟨((c3_integrity_verification_strictness sha0 b640 id8 [] "sha512-aa" ["t"]
      true).1).mpr ⟨"aa", rfl, rfl⟩,
   (c3_integrity_verification_strictness sha0 b640 id8 [] "sha512-aa" ["t"]
      true).2.2.2.2.1 (by rfl),
   (c3_integrity_verification_strictness sha0 b640 id8 [] "sha1-aa" ["t"]
      true).2.2.1 "sha1" "aa" rfl (by decide),
   (c3_integrity_verification_strictness sha0 b640 id8 [] "nodash" ["t"]
      true).2.1 rfl⟩

/-- C8 counterexample: a successful `ensure_package` run for a package
whose folder does not yet exist performs exactly a download followed by
an extraction whose target is `package_folder(id)` itself — there is no
extraction into a temporary sibling path and no rename anywhere in the
trace, contradicting the claimed temp-then-rename discipline. -/
theorem c8_no_temp_sibling_extraction_counterexample :
    (ensurePackage sha0 b640 ["cache"] id8 dist8
      ⟨false, .okBytes [], true, .ok⟩).2 =
      [.download "https://r/chalk-5.0.1.tgz",
       .extract (packageFolder ["cache"] id8)] ∧
    ((ensurePackage sha0 b640 ["cache"] id8 dist8
      ⟨false, .okBytes [], true, .ok⟩).2.all (fun op => !op.isRename)) = true ∧
    (ensurePackage sha0 b640 ["cache"] id8 dist8
      ⟨false, .okBytes [], true, .ok⟩).1 =
      .ok (packageFolder ["cache"] id8) := by
  exact ⟨rfl, rfl, rfl⟩

/-- C8 (amended): `ensure_package` extracts the verified tarball
*directly* into `package_folder(id)` — every extraction op in any trace
targets the final folder, no rename op ever occurs, an already-existing
folder short-circuits with an empty trace, and on a verification or
extraction failure the final folder is removed (best-effort) before the
error is surfaced. -/
theorem c8_ensure_package_extracts_in_place
    (sha512 : List Nat → List Nat) (base64encode : List Nat → String)
    (rootDir : List String) (id : NpmPackageId)
    (dist : NpmPackageVersionDistInfo) (w : CacheWorld) :
    (w.folderExists = true →
      ensurePackage sha512 base64encode rootDir id dist w =
        (.ok (packageFolder rootDir id), [])) ∧
    (∀ p, FsOp.extract p ∈
        (ensurePackage sha512 base64encode rootDir id dist w).2 →
      p = packageFolder rootDir id) ∧
    ((ensurePackage sha512 base64encode rootDir id dist w).2.all
      (fun op => !op.isRename)) = true ∧
    (∀ e, ((ensurePackage sha512 base64encode rootDir id dist w).1 =
          .error (.tarball e) ∨
        (ensurePackage sha512 base64encode rootDir id dist w).1 =
          .error (.cleanupFailed id e)) →
      FsOp.removeDirAll (packageFolder rootDir id) ∈
        (ensurePackage sha512 base64encode rootDir id dist w).2) := by
  obtain ⟨fe, dl, exok, rm⟩ := w
  cases fe with
  | true =>
    refine ⟨fun _ => rfl, ?_, rfl, ?_⟩
    · intro p hp
      simp [ensurePackage] at hp
    · intro e he
      rcases he with he | he <;> simp [ensurePackage] at he
  | false =>
    refine ⟨?_, ?_, ?_, ?_⟩
    · intro h
      cases h
    · intro p hp
      cases dl with
      | okBytes bytes =>
        simp only [ensurePackage, verifyAndExtractTarball] at hp
        cases hv : verifyTarball sha512 base64encode id bytes dist.integrity with
        | error e =>
          rw [hv] at hp
          cases rm <;> simp at hp
        | ok u =>
          rw [hv] at hp
          cases u
          cases exok with
          | true =>
            simp at hp
            exact hp
          | false =>
            cases rm <;> simp at hp <;> exact hp
      | notFound404 => simp [ensurePackage] at hp
      | badStatus s => simp [ensurePackage] at hp
      | transportError => simp [ensurePackage] at hp
    · cases dl with
      | okBytes bytes =>
        simp only [ensurePackage, verifyAndExtractTarball]
        cases hv : verifyTarball sha512 base64encode id bytes dist.integrity with
        | error e => cases rm <;> simp [FsOp.isRename]
        | ok u =>
          cases u
          cases exok with
          | true => simp [FsOp.isRename]
          | false => cases rm <;> simp [FsOp.isRename]
      | notFound404 => simp [ensurePackage, FsOp.isRename]
      | badStatus s => simp [ensurePackage, FsOp.isRename]
      | transportError => simp [ensurePackage, FsOp.isRename]
    · intro e he
      cases dl with
      | okBytes bytes =>
        simp only [ensurePackage, verifyAndExtractTarball] at he ⊢
        cases hv : verifyTarball sha512 base64encode id bytes dist.integrity with
        | error e0 => cases rm <;> simp
        | ok u =>
          cases u
          cases exok with
          | true => rcases he with he | he <;> rw [hv] at he <;> simp at he
          | false => cases rm <;> simp
      | notFound404 =>
        rcases he with he | he <;> simp [ensurePackage] at he
      | badStatus s =>
        rcases he with he | he <;> simp [ensurePackage] at he
      | transportError =>
        rcases he with he | he <;> simp [ensurePackage] at he

/-- C8 witness: the amended characterization applied at concrete inputs —
an existing folder short-circuits; the successful run's only extraction
target is the final folder; a `sha1` integrity failure removes the final
folder before surfacing the error. -/
theorem c8_ensure_package_extracts_in_place_witness :
    ensurePackage sha0 b640 ["cache"] id8 dist8
        ⟨true, .okBytes [], true, .ok⟩ =
      (.ok (packageFolder ["cache"] id8), []) ∧
    packageFolder ["cache"] id8 = packageFolder ["cache"] id8 ∧
    FsOp.removeDirAll (packageFolder ["cache"] id8) ∈
      (ensurePackage sha0 b640 ["cache"] id8 dist8sha1
        ⟨false, .okBytes [], true, .ok⟩).2 :=
  ⟨(c8_ensure_package_extracts_in_place sha0 b640 ["cache"] id8 dist8
      ⟨true, .okBytes [], true, .ok⟩).1 rfl,
   (c8_ensure_package_extracts_in_place sha0 b640 ["cache"] id8 dist8
      ⟨false, .okBytes [], true, .ok⟩).2.1 (packageFolder ["cache"] id8)
      (by decide),
   (c8_ensure_package_extracts_in_place sha0 b640 ["cache"] id8 dist8sha1
      ⟨false, .okBytes [], true, .ok⟩).2.2.2
      (.unsupportedHashFunction id8 "sha1") (Or.inl rfl)⟩

/-- C9: negative memoization of the registry client.  A cached `None`
(recorded 404) short-circuits every later `maybe_package_info` call for
that name — no request is issued regardless of what the wire would now
return — and `package_info` keeps failing with the package-does-not-exist
error; a fetch that errors (transport, non-404 HTTP status, malformed
JSON) adds no cache entry, while a 404 caches `None` and a success caches
the info, so only those two outcomes are memoized. -/
theorem c9_registry_negative_memoization (cache : RegistryCache)
    (name : String) (resp : RegistryResponse) :
    (lookupStr cache name = some none →
      maybePackageInfo cache name resp = ⟨.ok none, cache, false⟩ ∧
      packageInfoCall cache name resp =
        ⟨.error (.packageNotExist name), cache, false⟩) ∧
    (lookupStr cache name = none → ∀ e, maybePackageInfoInner resp = .error e →
      maybePackageInfo cache name resp = ⟨.error e, cache, true⟩) ∧
    (lookupStr cache name = none → resp = .notFound404 →
      maybePackageInfo cache name resp =
        ⟨.ok none, assocInsert cache name none, true⟩ ∧
      lookupStr (maybePackageInfo cache name resp).cache name = some none) ∧
    (lookupStr cache name = none → ∀ info, resp = .okJson info →
      (maybePackageInfo cache name resp).cache =
        assocInsert cache name (some info) ∧
      lookupStr (maybePackageInfo cache name resp).cache name =
        some (some info)) := by
  refine ⟨?_, ?_, ?_, ?_⟩
  · intro h
    constructor
    · simp [maybePackageInfo, h]
    · simp [packageInfoCall, maybePackageInfo, h]
  · intro h e he
    simp [maybePackageInfo, h, he]
  · intro h hr
    subst hr
    constructor
    · simp [maybePackageInfo, h, maybePackageInfoInner]
    · simp [maybePackageInfo, h, maybePackageInfoInner]
      exact lookupStr_assocInsert_self cache name none
  · intro h info hr
    subst hr
    constructor
    · simp [maybePackageInfo, h, maybePackageInfoInner]
    · simp [maybePackageInfo, h, maybePackageInfoInner]
      exact lookupStr_assocInsert_self cache name (some info)

/-- C9 witness: with `left-pad` already recorded as a 404, a later call
returns `None` without a request even though the wire would now return
the package, and `package_info` still fails; starting from an empty
cache, a transport error leaves the cache empty and a 404 records
`None`. -/
theorem c9_registry_negative_memoization_witness :
    maybePackageInfo [("left-pad", none)] "left-pad"
        (.okJson ⟨"left-pad", []⟩) =
      ⟨.ok none, [("left-pad", none)], false⟩ ∧
    packageInfoCall [("left-pad", none)] "left-pad"
        (.okJson ⟨"left-pad", []⟩) =
      ⟨.error (.packageNotExist "left-pad"), [("left-pad", none)], false⟩ ∧
    maybePackageInfo [] "left-pad" .transportError =
      ⟨.error .requestFailed, [], true⟩ ∧
    maybePackageInfo [] "left-pad" .notFound404 =
      ⟨.ok none, [("left-pad", none)], true⟩ :=
  ⟨((c9_registry_negative_memoization [("left-pad", none)] "left-pad"
      (.okJson ⟨"left-pad", []⟩)).1 rfl).1,
   ((c9_registry_negative_memoization [("left-pad", none)] "left-pad"
      (.okJson ⟨"left-pad", []⟩)).1 rfl).2,
   (c9_registry_negative_memoization [] "left-pad" .transportError).2.1 rfl
     .requestFailed rfl,
   ((c9_registry_negative_memoization [] "left-pad" .notFound404).2.2.1 rfl
     rfl).1⟩

/-- `a ≤ b` on embedded versions, spelled out on components. -/
def Version.leKey (a b : Version) : Prop :=
  a.major < b.major ∨ (a.major = b.major ∧
    (a.minor < b.minor ∨ (a.minor = b.minor ∧ a.patch ≤ b.patch)))

/-- `a < b` on embedded versions, spelled out on components. -/
def Version.ltKey (a b : Version) : Prop :=
  a.major < b.major ∨ (a.major = b.major ∧
    (a.minor < b.minor ∨ (a.minor = b.minor ∧ a.patch < b.patch)))

theorem Version.cmp_isGT_false_iff (a b : Version) :
    (Version.cmp a b).isGT = false ↔ Version.leKey a b := by
  unfold Version.cmp Version.leKey
  split_ifs <;> simp [Ordering.isGT] <;> omega

theorem Version.cmp_isLT_true_iff (a b : Version) :
    (Version.cmp a b).isLT = true ↔ Version.ltKey a b := by
  unfold Version.cmp Version.ltKey
  split_ifs <;> simp [Ordering.isLT] <;> omega

theorem Version.leKey_trans {a b c : Version} (h1 : Version.leKey a b)
    (h2 : Version.leKey b c) : Version.leKey a c := by
  unfold Version.leKey at h1 h2 ⊢
  omega

theorem Version.leKey_refl (a : Version) : Version.leKey a a := by
  unfold Version.leKey
  omega

theorem Version.ltKey_le {a b : Version} (h : Version.ltKey a b) :
    Version.leKey a b := by
  unfold Version.ltKey at h
  unfold Version.leKey
  omega

theorem Version.not_ltKey_le {a b : Version} (h : ¬ Version.ltKey a b) :
    Version.leKey b a := by
  unfold Version.ltKey at h
  unfold Version.leKey
  omega

/-- Fold invariant of `get_resolved_package_version_and_info`'s
best-match loop: the returned entry (if any) comes from the running best
or the list, matches the requirement, and is greater-or-equal (in the
`semver` order) to every matching list entry and to the running best. -/
theorem pickBestVersion_spec (req : VersionReq) :
    ∀ (l : List NpmPackageVersionInfo) (best : Option NpmPackageVersionInfo),
    (∀ b, best = some b → req.matches b.version = true) →
    (∀ v, pickBestVersion req best l = some v →
      (best = some v ∨ v ∈ l) ∧ req.matches v.version = true ∧
      (∀ u ∈ l, req.matches u.version = true →
        Version.leKey u.version v.version) ∧
      (∀ b, best = some b → Version.leKey b.version v.version)) ∧
    (pickBestVersion req best l = none →
      best = none ∧ ∀ u ∈ l, req.matches u.version = false) := by
  intro l
  induction l with
  | nil =>
    intro best hb
    constructor
    · intro v hv
      simp [pickBestVersion] at hv
      refine ⟨Or.inl hv, hb v hv, by simp, ?_⟩
      intro b hbv
      rw [hbv] at hv
      cases hv
      exact Version.leKey_refl _
    · intro hv
      simp [pickBestVersion] at hv
      exact ⟨hv, by simp⟩
  | cons vi rest ih =>
    intro best hb
    by_cases hm : req.matches vi.version = true
    · cases best with
      | none =>
        have hrec : pickBestVersion req none (vi :: rest) =
            pickBestVersion req (some vi) rest := by
          simp [pickBestVersion, hm]
        obtain ⟨ihok, ihnone⟩ := ih (some vi)
          (fun b hbv => by cases hbv; exact hm)
        constructor
        · intro v hv
          rw [hrec] at hv
          obtain ⟨hmem, hmv, hall, hbest⟩ := ihok v hv
          refine ⟨?_, hmv, ?_, ?_⟩
          · rcases hmem with hmem | hmem
            · cases hmem
              exact Or.inr (List.mem_cons_self _ _)
            · exact Or.inr (List.mem_cons_of_mem _ hmem)
          · intro u hu hmu
            rcases List.mem_cons.mp hu with hu | hu
            · subst hu
              exact hbest u rfl
            · exact hall u hu hmu
          · intro b hbv
            cases hbv
        · intro hv
          rw [hrec] at hv
          obtain ⟨hcontra, _⟩ := ihnone hv
          cases hcontra
      | some b =>
        by_cases hlt : (Version.cmp b.version vi.version).isLT = true
        · have hrec : pickBestVersion req (some b) (vi :: rest) =
              pickBestVersion req (some vi) rest := by
            simp [pickBestVersion, hm, hlt]
          have hble : Version.leKey b.version vi.version :=
            Version.ltKey_le ((Version.cmp_isLT_true_iff _ _).mp hlt)
          obtain ⟨ihok, ihnone⟩ := ih (some vi)
            (fun b0 hbv => by cases hbv; exact hm)
          constructor
          · intro v hv
            rw [hrec] at hv
            obtain ⟨hmem, hmv, hall, hbest⟩ := ihok v hv
            have hviv : Version.leKey vi.version v.version := hbest vi rfl
            refine ⟨?_, hmv, ?_, ?_⟩
            · rcases hmem with hmem | hmem
              · cases hmem
                exact Or.inr (List.mem_cons_self _ _)
              · exact Or.inr (List.mem_cons_of_mem _ hmem)
            · intro u hu hmu
              rcases List.mem_cons.mp hu with hu | hu
              · subst hu
                exact hviv
              · exact hall u hu hmu
            · intro b0 hbv
              cases hbv
              exact Version.leKey_trans hble hviv
          · intro hv
            rw [hrec] at hv
            obtain ⟨hcontra, _⟩ := ihnone hv
            cases hcontra
        · have hrec : pickBestVersion req (some b) (vi :: rest) =
              pickBestVersion req (some b) rest := by
            simp [pickBestVersion, hm, hlt]
          have hvile : Version.leKey vi.version b.version :=
            Version.not_ltKey_le
              (fun hc => hlt ((Version.cmp_isLT_true_iff _ _).mpr hc))
          obtain ⟨ihok, ihnone⟩ := ih (some b) hb
          constructor
          · intro v hv
            rw [hrec] at hv
            obtain ⟨hmem, hmv, hall, hbest⟩ := ihok v hv
            have hbv : Version.leKey b.version v.version := hbest b rfl
            refine ⟨?_, hmv, ?_, ?_⟩
            · rcases hmem with hmem | hmem
              · exact Or.inl hmem
              · exact Or.inr (List.mem_cons_of_mem _ hmem)
            · intro u hu hmu
              rcases List.mem_cons.mp hu with hu | hu
              · subst hu
                exact Version.leKey_trans hvile hbv
              · exact hall u hu hmu
            · intro b0 hbv0
              cases hbv0
              exact hbv
          · intro hv
            rw [hrec] at hv
            obtain ⟨hcontra, _⟩ := ihnone hv
            cases hcontra
    · have hrec : pickBestVersion req best (vi :: rest) =
          pickBestVersion req best rest := by
        simp [pickBestVersion, hm]
      obtain ⟨ihok, ihnone⟩ := ih best hb
      constructor
      · intro v hv
        rw [hrec] at hv
        obtain ⟨hmem, hmv, hall, hbest⟩ := ihok v hv
        refine ⟨?_, hmv, ?_, hbest⟩
        · rcases hmem with hmem | hmem
          · exact Or.inl hmem
          · exact Or.inr (List.mem_cons_of_mem _ hmem)
        · intro u hu hmu
          rcases List.mem_cons.mp hu with hu | hu
          · subst hu
            rw [hmu] at hm
            exact absurd rfl hm
          · exact hall u hu hmu
      · intro hv
        rw [hrec] at hv
        obtain ⟨hbn, hall⟩ := ihnone hv
        refine ⟨hbn, ?_⟩
        intro u hu
        rcases List.mem_cons.mp hu with hu | hu
        · subst hu
          exact Bool.not_eq_true _ ▸ (by simpa using hm)
        · exact hall u hu

/-- C2: against any fetched registry metadata,
`get_resolved_package_version_and_info` returns a listed version that
satisfies the requirement and is maximal in SemVer order among the
satisfying versions, and when no listed version satisfies it fails with
the error naming the package, the requirement and the optional parent. -/
theorem c2_best_match_version_selection (package : NpmPackageReq)
    (info : NpmPackageInfo) (parent : Option NpmPackageId) :
    (∀ vi, getResolvedPackageVersionAndInfo package info parent = .ok vi →
      vi ∈ info.versions ∧ package.versionReq.matches vi.version = true ∧
      ∀ u ∈ info.versions, package.versionReq.matches u.version = true →
        Version.leKey u.version vi.version) ∧
    (∀ e, getResolvedPackageVersionAndInfo package info parent = .error e →
      (∀ u ∈ info.versions, package.versionReq.matches u.version = false) ∧
      e = .versionNotFound package.name package.versionReq parent) := by
  obtain ⟨hok, hnone⟩ :=
    pickBestVersion_spec package.versionReq info.versions none (by simp)
  constructor
  · intro vi hvi
    unfold getResolvedPackageVersionAndInfo at hvi
    cases hp : pickBestVersion package.versionReq none info.versions with
    | none =>
      rw [hp] at hvi
      cases hvi
    | some v =>
      rw [hp] at hvi
      cases hvi
      obtain ⟨hmem, hmv, hall, _⟩ := hok vi hp
      rcases hmem with hmem | hmem
      · cases hmem
      · exact ⟨hmem, hmv, hall⟩
  · intro e he
    unfold getResolvedPackageVersionAndInfo at he
    cases hp : pickBestVersion package.versionReq none info.versions with
    | none =>
      rw [hp] at he
      cases he
      exact ⟨(hnone hp).2, rfl⟩
    | some v =>
      rw [hp] at he
      cases he

/-- C2 witness: resolving `chalk@^5.0.0` against versions
`5.0.0, 5.1.0, 4.9.0` binds `chalk@5.1.0`, which is listed, satisfies
the range, and dominates every satisfying version. -/
theorem c2_best_match_version_selection_witness :
    getResolvedPackageVersionAndInfo ⟨"chalk", .caret ⟨5, 0, 0⟩⟩ chalkInfo
        none = .ok chalkVi510 ∧
    (chalkVi510 ∈ chalkInfo.versions ∧
      VersionReq.matches (.caret ⟨5, 0, 0⟩) chalkVi510.version = true ∧
      ∀ u ∈ chalkInfo.versions,
        VersionReq.matches (.caret ⟨5, 0, 0⟩) u.version = true →
          Version.leKey u.version chalkVi510.version) :=
  ⟨rfl,
   (c2_best_match_version_selection ⟨"chalk", .caret ⟨5, 0, 0⟩⟩ chalkInfo
      none).1 chalkVi510 rfl⟩

/-- The claim's identifier condition, written from the spec's words: the
name starts with `[A-Za-z_$]` and continues with only `[A-Za-z0-9_$]`. -/
def specUsableIdent (name : String) : Bool :=
  match name.data with
  | [] => false
  | c :: rest =>
    (c.isAlpha || c = '_' || c = '$') &&
      rest.all (fun ch => ch.isAlphanum || ch = '_' || ch = '$')

/-- The initializer used by the translator's export loop. -/
def modInitializer (n : String) : String :=
  "mod[\"" ++ escapeForDoubleQuoteString n ++ "\"]"

def needsTempVar (n : String) : Bool :=
  if n = "default" then false
  else RESERVED_WORDS.contains n || !(isValidVarDecl n)

def escapedNames (names : List String) : List String :=
  names.filter needsTempVar

/-- Spec-level emitter for one export name, written from the claim's
words: skip `default`; emit `export const` when the name is a usable
identifier and not reserved; otherwise emit the fresh temporary plus the
string-aliased export, bumping the counter. -/
def specEmitOne (n : String) (count : Nat) : List String × Nat :=
  if n = "default" then ([], count)
  else if specUsableIdent n && !(RESERVED_WORDS.contains n) then
    ([directExportLine n (modInitializer n)], count)
  else
    ([tempVarDeclLine (count + 1) (modInitializer n),
      aliasExportLine (count + 1) n], count + 1)

def specEmitAll : List String → Nat → List String × Nat
  | [], count => ([], count)
  | n :: rest, count =>
    ((specEmitOne n count).1 ++ (specEmitAll rest (specEmitOne n count).2).1,
      (specEmitAll rest (specEmitOne n count).2).2)

/-- The code's validity test coincides with the claim's identifier
condition. -/
theorem isValidVarDecl_eq_specUsableIdent (name : String) :
    isValidVarDecl name = specUsableIdent name := by
  unfold isValidVarDecl specUsableIdent
  cases h : name.data with
  | nil => rfl
  | cons c rest =>
    by_cases hc : (c.isAlpha || c = '_' || c = '$') = true
    · have hfirst : (c.isAlphanum || c = '_' || c = '$') = true := by
        simp only [Bool.or_eq_true, decide_eq_true_eq, Char.isAlphanum] at hc ⊢
        tauto
      simp [hc, hfirst]
    · have hcf : (c.isAlpha || c = '_' || c = '$') = false := by
        simpa using hc
      simp [hcf]

/-- C7: the translator's export-emission loop coincides with the
spec-level emitter: a name is emitted as a direct
`export const <name> = mod["<name>"];` exactly when it starts with
`[A-Za-z_$]`, continues with `[A-Za-z0-9_$]` and is not a reserved word;
every other (non-`default`) name is emitted through a fresh
`__deno_export_N__` temporary plus a string-aliased export, and the
counter after the loop has advanced by exactly the number of escaped
names (so `N` is `count+1, count+2, …` in emission order, starting at 1
for the first escaped name of a translation). -/
theorem c7_export_identifier_emission (names source : List String)
    (count : Nat) :
    emitExports names source count =
      (source ++ (specEmitAll names count).1, (specEmitAll names count).2) ∧
    (specEmitAll names count).2 = count + (escapedNames names).length := by
  induction names generalizing source count with
  | nil =>
    exact ⟨by simp [emitExports, specEmitAll],
      by simp [specEmitAll, escapedNames]⟩
  | cons n rest ih =>
    by_cases hd : n = "default"
    · subst hd
      have h1 : emitExports ("default" :: rest) source count =
          emitExports rest source count := by
        simp [emitExports]
      have h2 : specEmitAll ("default" :: rest) count =
          ((specEmitAll rest count).1, (specEmitAll rest count).2) := by
        simp [specEmitAll, specEmitOne]
      have h3 : escapedNames ("default" :: rest) = escapedNames rest := by
        simp [escapedNames, needsTempVar]
      rw [h1, h2, h3]
      exact ih source count
    · by_cases hmem : n ∈ RESERVED_WORDS
      · have h1 : emitExports (n :: rest) source count =
            emitExports rest
              (source ++ [tempVarDeclLine (count + 1) (modInitializer n),
                aliasExportLine (count + 1) n]) (count + 1) := by
          simp [emitExports, hd, addExport, hmem, modInitializer]
        have h2 : specEmitAll (n :: rest) count =
            ([tempVarDeclLine (count + 1) (modInitializer n),
                aliasExportLine (count + 1) n] ++
              (specEmitAll rest (count + 1)).1,
              (specEmitAll rest (count + 1)).2) := by
          simp [specEmitAll, specEmitOne, hd, hmem]
        have h3 : escapedNames (n :: rest) = n :: escapedNames rest := by
          simp [escapedNames, needsTempVar, hd, hmem]
        obtain ⟨ih1, ih2⟩ := ih
          (source ++ [tempVarDeclLine (count + 1) (modInitializer n),
            aliasExportLine (count + 1) n]) (count + 1)
        rw [h1, h2, h3, ih1, ih2]
        constructor
        · simp
        · simp
          omega
      · by_cases hval : isValidVarDecl n = true
        · have hspec : specUsableIdent n = true := by
            rw [← isValidVarDecl_eq_specUsableIdent]
            exact hval
          have h1 : emitExports (n :: rest) source count =
              emitExports rest
                (source ++ [directExportLine n (modInitializer n)]) count := by
            simp [emitExports, hd, addExport, hmem, hval, modInitializer,
              directExportLine]
          have h2 : specEmitAll (n :: rest) count =
              ([directExportLine n (modInitializer n)] ++
                (specEmitAll rest count).1, (specEmitAll rest count).2) := by
            simp [specEmitAll, specEmitOne, hd, hspec, hmem]
          have h3 : escapedNames (n :: rest) = escapedNames rest := by
            simp [escapedNames, needsTempVar, hd, hval, hmem]
          obtain ⟨ih1, ih2⟩ := ih
            (source ++ [directExportLine n (modInitializer n)]) count
          rw [h1, h2, h3, ih1, ih2]
          constructor
          · simp
          · rfl
        · have hvalf : isValidVarDecl n = false := by
            simpa using hval
          have hspecf : specUsableIdent n = false := by
            rw [← isValidVarDecl_eq_specUsableIdent]
            exact hvalf
          have h1 : emitExports (n :: rest) source count =
              emitExports rest
                (source ++ [tempVarDeclLine (count + 1) (modInitializer n),
                  aliasExportLine (count + 1) n]) (count + 1) := by
            simp [emitExports, hd, addExport, hvalf, modInitializer]
          have h2 : specEmitAll (n :: rest) count =
              ([tempVarDeclLine (count + 1) (modInitializer n),
                  aliasExportLine (count + 1) n] ++
                (specEmitAll rest (count + 1)).1,
                (specEmitAll rest (count + 1)).2) := by
            simp [specEmitAll, specEmitOne, hd, hspecf]
          have h3 : escapedNames (n :: rest) = n :: escapedNames rest := by
            simp [escapedNames, needsTempVar, hd, hvalf]
          obtain ⟨ih1, ih2⟩ := ih
            (source ++ [tempVarDeclLine (count + 1) (modInitializer n),
              aliasExportLine (count + 1) n]) (count + 1)
          rw [h1, h2, h3, ih1, ih2]
          constructor
          · simp
          · simp
            omega

theorem lookupId_append_left {α : Type} (l1 l2 : List (NpmPackageId × α))
    (k : NpmPackageId) (v : α) (h : lookupId l1 k = some v) :
    lookupId (l1 ++ l2) k = some v := by
  induction l1 with
  | nil => simp [lookupId] at h
  | cons e rest ih =>
    obtain ⟨ek, ev⟩ := e
    rw [lookupId] at h
    by_cases he : ek = k
    · subst he
      simp only [if_pos rfl] at h
      cases h
      simp [lookupId]
    · simp only [if_neg he] at h
      simp only [List.cons_append, lookupId, if_neg he]
      exact ih h

theorem lookupId_append_none {α : Type} (l1 l2 : List (NpmPackageId × α))
    (k : NpmPackageId) (h : lookupId l1 k = none) :
    lookupId (l1 ++ l2) k = lookupId l2 k := by
  induction l1 with
  | nil => simp
  | cons e rest ih =>
    obtain ⟨ek, ev⟩ := e
    rw [lookupId] at h
    by_cases he : ek = k
    · simp only [he, if_pos rfl] at h
      cases h
    · simp only [if_neg he] at h
      simp only [List.cons_append, lookupId, if_neg he]
      exact ih h

theorem lookupId_isSome_append {α : Type} (l1 l2 : List (NpmPackageId × α))
    (k : NpmPackageId) (h : (lookupId l1 k).isSome = true) :
    (lookupId (l1 ++ l2) k).isSome = true := by
  cases hv : lookupId l1 k with
  | none => rw [hv] at h; cases h
  | some v => rw [lookupId_append_left l1 l2 k v hv]; rfl

theorem lookupId_mem {α : Type} (l : List (NpmPackageId × α))
    (k : NpmPackageId) (v : α) (h : lookupId l k = some v) : (k, v) ∈ l := by
  induction l with
  | nil => simp [lookupId] at h
  | cons e rest ih =>
    obtain ⟨ek, ev⟩ := e
    rw [lookupId] at h
    by_cases he : ek = k
    · subst he
      simp only [if_pos rfl] at h
      cases h
      exact List.mem_cons_self _ _
    · simp only [if_neg he] at h
      exact List.mem_cons_of_mem _ (ih h)

theorem lookupStr_mem {α : Type} (l : List (String × α)) (k : String)
    (v : α) (h : lookupStr l k = some v) : (k, v) ∈ l := by
  induction l with
  | nil => simp [lookupStr] at h
  | cons e rest ih =>
    obtain ⟨ek, ev⟩ := e
    rw [lookupStr] at h
    by_cases he : ek = k
    · subst he
      simp only [if_pos rfl] at h
      cases h
      exact List.mem_cons_self _ _
    · simp only [if_neg he] at h
      exact List.mem_cons_of_mem _ (ih h)

/-- The three structural invariants of the `populate_packages` walk,
proved together by strong induction on the forest size: the accumulator
is only extended; every child of the forest ends up as a key; and every
recorded entry was either already in the accumulator or has all its
dependency ids recorded as keys of the final map. -/
theorem populatePackages_inv : ∀ (n : Nat) (cs : List (String × PkgCtx))
    (acc : List (NpmPackageId × NpmResolutionPackage)), sizeOf cs ≤ n →
    (∃ ext, populatePackages cs acc = acc ++ ext) ∧
    (∀ e ∈ cs,
      (lookupId (populatePackages cs acc) ⟨e.1, e.2.version⟩).isSome = true) ∧
    (∀ p ∈ populatePackages cs acc, p ∈ acc ∨
      ∀ d ∈ p.2.dependencies,
        (lookupId (populatePackages cs acc) d.2).isSome = true) := by
  intro n
  induction n with
  | zero =>
    intro cs acc h
    cases cs with
    | nil =>
      refine ⟨⟨[], by simp [populatePackages]⟩, by simp, ?_⟩
      intro p hp
      simp [populatePackages] at hp
      exact Or.inl hp
    | cons e rest =>
      simp at h
  | succ n ihn =>
    intro cs acc h
    cases cs with
    | nil =>
      refine ⟨⟨[], by simp [populatePackages]⟩, by simp, ?_⟩
      intro p hp
      simp [populatePackages] at hp
      exact Or.inl hp
    | cons e rest =>
      obtain ⟨name, c⟩ := e
      have hszc : sizeOf c.children ≤ n := by
        have hlt := PkgCtx.sizeOf_children_lt c
        simp at h
        omega
      have hszr : sizeOf rest ≤ n := by
        simp at h
        omega
      by_cases hmem : (lookupId acc ⟨name, c.version⟩).isSome = true
      · have hstep : populatePackages ((name, c) :: rest) acc =
            populatePackages rest acc := by
          simp [populatePackages, hmem]
        obtain ⟨⟨ext2, hext2⟩, hcov2, hmain2⟩ := ihn rest acc hszr
        rw [hstep]
        refine ⟨⟨ext2, hext2⟩, ?_, hmain2⟩
        intro e he
        rcases List.mem_cons.mp he with he | he
        · subst he
          rw [hext2]
          exact lookupId_isSome_append acc ext2 _ hmem
        · exact hcov2 e he
      · have hstep : populatePackages ((name, c) :: rest) acc =
            populatePackages rest (populatePackages c.children
              (acc ++ [(⟨name, c.version⟩,
                ⟨⟨name, c.version⟩, c.info.dist, childIds c.children⟩)])) := by
          simp [populatePackages, hmem]
        set entry : NpmPackageId × NpmResolutionPackage :=
          (⟨name, c.version⟩,
            ⟨⟨name, c.version⟩, c.info.dist, childIds c.children⟩) with hentry
        obtain ⟨⟨ext1, hext1⟩, hcov1, hmain1⟩ :=
          ihn c.children (acc ++ [entry]) hszc
        obtain ⟨⟨ext2, hext2⟩, hcov2, hmain2⟩ :=
          ihn rest (populatePackages c.children (acc ++ [entry])) hszr
        rw [hstep]
        have hacc1 : populatePackages c.children (acc ++ [entry]) =
            acc ++ [entry] ++ ext1 := hext1
        have hfin : populatePackages rest
            (populatePackages c.children (acc ++ [entry])) =
            acc ++ ([entry] ++ ext1 ++ ext2) := by
          rw [hext2, hacc1]
          simp
        have hentrylook : (lookupId (populatePackages rest
            (populatePackages c.children (acc ++ [entry])))
            ⟨name, c.version⟩).isSome = true := by
          rw [hext2]
          apply lookupId_isSome_append
          rw [hacc1]
          apply lookupId_isSome_append
          have hn : lookupId acc ⟨name, c.version⟩ = none := by
            cases hl : lookupId acc ⟨name, c.version⟩ with
            | none => rfl
            | some v => rw [hl] at hmem; simp at hmem
          rw [lookupId_append_none acc [entry] _ hn]
          simp [lookupId, hentry]
        refine ⟨⟨[entry] ++ ext1 ++ ext2, hfin⟩, ?_, ?_⟩
        · intro e he
          rcases List.mem_cons.mp he with he | he
          · subst he
            exact hentrylook
          · exact hcov2 e he
        · intro p hp
          rcases hmain2 p hp with hp2 | hp2
          · rcases hmain1 p hp2 with hp1 | hp1
            · rcases List.mem_append.mp hp1 with hp0 | hp0
              · exact Or.inl hp0
              · simp at hp0
                subst hp0
                refine Or.inr ?_
                intro d hd
                simp only [hentry] at hd
                simp only [childIds, List.mem_map] at hd
                obtain ⟨e0, he0, hde⟩ := hd
                have := hcov1 e0 he0
                rw [hext2, ← hde]
                exact lookupId_isSome_append _ ext2 _ this
            · refine Or.inr ?_
              intro d hd
              rw [hext2]
              exact lookupId_isSome_append _ ext2 _ (hp1 d hd)
          · exact Or.inr hp2

/-- C4: in every snapshot produced by `as_stored`, every top-level
`PackageId` and every id appearing as a dependency value is a key of
`packages`, so the internal `packages.get(..).unwrap()` lookups of
`resolve_package` never hit a missing id (the embedded
`internalUnwrapFailure` outcome is unreachable). -/
theorem c4_snapshot_soundness (root : List (String × PkgCtx)) :
    (∀ t ∈ (asStored root).topLevelPackages,
      (lookupId (asStored root).packages t.2).isSome = true) ∧
    (∀ p ∈ (asStored root).packages, ∀ d ∈ p.2.dependencies,
      (lookupId (asStored root).packages d.2).isSome = true) ∧
    (∀ name referrer, resolvePackage (asStored root) name referrer ≠
      .error .internalUnwrapFailure) := by
  obtain ⟨_, hcov, hmain⟩ :=
    populatePackages_inv (sizeOf root) root [] (Nat.le_refl _)
  have hcov' : ∀ t ∈ (asStored root).topLevelPackages,
      (lookupId (asStored root).packages t.2).isSome = true := by
    intro t ht
    simp only [asStored, List.mem_map] at ht
    obtain ⟨e, he, hte⟩ := ht
    have := hcov e he
    simp only [asStored]
    rw [← hte]
    exact this
  have hmain' : ∀ p ∈ (asStored root).packages, ∀ d ∈ p.2.dependencies,
      (lookupId (asStored root).packages d.2).isSome = true := by
    intro p hp d hd
    simp only [asStored] at hp ⊢
    rcases hmain p hp with hp0 | hp0
    · simp at hp0
    · exact hp0 d hd
  refine ⟨hcov', hmain', ?_⟩
  intro name referrer
  unfold resolvePackage
  cases referrer with
  | some r =>
    cases hr : lookupId (asStored root).packages r with
    | none => simp [hr]
    | some rp =>
      cases hd : lookupStr rp.dependencies name with
      | none => simp [hr, hd]
      | some depId =>
        have hrmem := lookupId_mem _ _ _ hr
        have hdmem := lookupStr_mem _ _ _ hd
        have := hmain' (r, rp) hrmem (name, depId) hdmem
        cases hl : lookupId (asStored root).packages depId with
        | none => rw [hl] at this; cases this
        | some p => simp [hr, hd, hl]
  | none =>
    cases ht : lookupStr (asStored root).topLevelPackages name with
    | none => simp [ht]
    | some id =>
      have htmem := lookupStr_mem _ _ _ ht
      have := hcov' (name, id) htmem
      cases hl : lookupId (asStored root).packages id with
      | none => rw [hl] at this; cases this
      | some p => simp [ht, hl]

/-- C4 witness: the soundness facts applied to a small concrete context
(`a@1.0.0` with a nested child `b@2.0.0`). -/
theorem c4_snapshot_soundness_witness :
    (lookupId (asStored [("a", PkgCtx.mk ⟨1, 0, 0⟩ chalkVi510
        [("b", PkgCtx.mk ⟨2, 0, 0⟩ chalkVi510 [] [])] [])]).packages
      (⟨"a", ⟨1, 0, 0⟩⟩ : NpmPackageId)).isSome = true ∧
    resolvePackage (asStored [("a", PkgCtx.mk ⟨1, 0, 0⟩ chalkVi510
        [("b", PkgCtx.mk ⟨2, 0, 0⟩ chalkVi510 [] [])] [])]) "a" none ≠
      .error .internalUnwrapFailure :=
  ⟨(c4_snapshot_soundness _).1 ("a", ⟨"a", ⟨1, 0, 0⟩⟩)
    (by simp [asStored, PkgCtx.version]),
   (c4_snapshot_soundness _).2.2 "a" none⟩

/-- Invariant of the worklist drain: if the already-analyzed URLs and the
queued URLs are jointly duplicate-free and all recorded in the visited
list, the final analyzed list is duplicate-free, and a visited URL that
is neither analyzed nor queued is never analyzed later. -/
theorem runLoop_analyzed_inv (g : List (String × CjsAnalysisE))
    (rmap : List ((String × String) × String)) :
    ∀ (queue : List QItem) (visited exports : List String)
      (errors : List TranslateError) (analyzed : List String),
    (analyzed ++ queue.map QItem.url).Nodup →
    (∀ u ∈ analyzed ++ queue.map QItem.url, u ∈ visited) →
    (runLoop g rmap queue visited exports errors analyzed).analyzed.Nodup ∧
    (∀ x, x ∈ visited → x ∉ analyzed ++ queue.map QItem.url →
      x ∉ (runLoop g rmap queue visited exports errors analyzed).analyzed) := by
  intro queue visited exports errors analyzed
  induction queue, visited, exports, errors, analyzed using runLoop.induct g rmap with
  | case1 x exports errors analyzed =>
    intro h1 h2
    refine ⟨by simpa [runLoop] using h1, ?_⟩
    intro y _ hy
    simp [runLoop]
    simp at hy
    exact hy
  | case2 q rest visited exports errors analyzed hload ih =>
    intro h1 h2
    have hstep : runLoop g rmap (q :: rest) visited exports errors analyzed =
        runLoop g rmap rest visited exports
          (errors ++ [.loadError q.reexport q.url q.referrer])
          (analyzed ++ [q.url]) := by
      simp [runLoop, hload]
    have h1' : ((analyzed ++ [q.url]) ++ rest.map QItem.url).Nodup := by
      simpa [List.append_assoc] using h1
    have h2' : ∀ u ∈ (analyzed ++ [q.url]) ++ rest.map QItem.url,
        u ∈ visited := by
      intro u hu
      apply h2
      simpa [List.append_assoc] using hu
    obtain ⟨ihn, ihx⟩ := ih h1' h2'
    rw [hstep]
    refine ⟨ihn, ?_⟩
    intro x hx hxn
    apply ihx x hx
    simpa [List.append_assoc] using hxn
  | case3 q rest visited exports errors analyzed hesm ih =>
    intro h1 h2
    have hstep : runLoop g rmap (q :: rest) visited exports errors analyzed =
        runLoop g rmap rest visited exports
          (errors ++ [.cannotRequireEsm q.url q.referrer])
          (analyzed ++ [q.url]) := by
      simp [runLoop, hesm]
    have h1' : ((analyzed ++ [q.url]) ++ rest.map QItem.url).Nodup := by
      simpa [List.append_assoc] using h1
    have h2' : ∀ u ∈ (analyzed ++ [q.url]) ++ rest.map QItem.url,
        u ∈ visited := by
      intro u hu
      apply h2
      simpa [List.append_assoc] using hu
    obtain ⟨ihn, ihx⟩ := ih h1' h2'
    rw [hstep]
    refine ⟨ihn, ?_⟩
    intro x hx hxn
    apply ihx x hx
    simpa [List.append_assoc] using hxn
  | case4 q rest visited exports errors analyzed exps rex hcjs v1 ni e1 hhr ih =>
    intro h1 h2
    have hstep : runLoop g rmap (q :: rest) visited exports errors analyzed =
        runLoop g rmap (rest ++ ni) v1
          (exports ++ exps.filter (fun e => e ≠ "default")) (errors ++ e1)
          (analyzed ++ [q.url]) := by
      simp [runLoop, hcjs, hhr]
    obtain ⟨hmeas, hmono, hchar, hnodup⟩ :=
      handleReexports_spec rmap q.url rex visited [] []
    rw [hhr] at hmono hchar hnodup
    have hni_nodup : (ni.map QItem.url).Nodup := (hnodup (by simp)).1 (by simp)
    have hni_v1 : ∀ q0 ∈ ni, q0.url ∈ v1 := (hnodup (by simp)).2
    have hni_new : ∀ q0 ∈ ni, q0.url ∉ visited := by
      intro q0 hq0
      rcases hchar q0 hq0 with hq | hq
      · simp at hq
      · exact hq.1
    have hold_vis : ∀ u ∈ analyzed ++ q.url :: rest.map QItem.url,
        u ∈ visited := h2
    have h1' : ((analyzed ++ [q.url]) ++ (rest ++ ni).map QItem.url).Nodup := by
      have heq : (analyzed ++ [q.url]) ++ (rest ++ ni).map QItem.url =
          (analyzed ++ q.url :: rest.map QItem.url) ++ ni.map QItem.url := by
        simp
      rw [heq]
      refine List.Nodup.append h1 hni_nodup ?_
      rw [List.disjoint_left]
      intro a ha hani
      simp only [List.mem_map] at hani
      obtain ⟨q0, hq0, hq0a⟩ := hani
      exact hni_new q0 hq0 (hq0a ▸ hold_vis a ha)
    have h2' : ∀ u ∈ (analyzed ++ [q.url]) ++ (rest ++ ni).map QItem.url,
        u ∈ v1 := by
      intro u hu
      have : u ∈ (analyzed ++ q.url :: rest.map QItem.url) ++
          ni.map QItem.url := by
        simpa using hu
      rcases List.mem_append.mp this with hu0 | hu0
      · exact hmono u (hold_vis u hu0)
      · simp only [List.mem_map] at hu0
        obtain ⟨q0, hq0, hq0u⟩ := hu0
        exact hq0u ▸ hni_v1 q0 hq0
    obtain ⟨ihn, ihx⟩ := ih h1' h2'
    rw [hstep]
    refine ⟨ihn, ?_⟩
    intro x hx hxn
    apply ihx x (hmono x hx)
    intro hc
    have : x ∈ (analyzed ++ q.url :: rest.map QItem.url) ++
        ni.map QItem.url := by
      simpa using hc
    rcases List.mem_append.mp this with hx0 | hx0
    · exact hxn hx0
    · simp only [List.mem_map] at hx0
      obtain ⟨q0, hq0, hq0x⟩ := hx0
      exact hni_new q0 hq0 (hq0x ▸ hx)

/-- C10: the recursive reexport expansion of the translator visits each
resolved specifier URL at most once and never re-analyzes the entry
module, on *every* finite module graph and resolver — cyclic reexport
chains included.  (The worklist function is total by construction, which
is the termination claim: the visited set is seeded with the entry and
consulted before scheduling any analysis.) -/
theorem c10_reexport_expansion_each_url_once
    (g : List (String × CjsAnalysisE))
    (rmap : List ((String × String) × String)) (entry : String)
    (reexports exports0 : List String) :
    (analyzeReexports g rmap entry reexports exports0).analyzed.Nodup ∧
    entry ∉ (analyzeReexports g rmap entry reexports exports0).analyzed := by
  obtain ⟨hmeas, hmono, hchar, hnodup⟩ :=
    handleReexports_spec rmap entry reexports [entry] [] []
  rcases hhr : handleReexports rmap entry reexports [entry] [] [] with
    ⟨v1, ni, e1⟩
  rw [hhr] at hmono hchar hnodup
  have hstep : analyzeReexports g rmap entry reexports exports0 =
      runLoop g rmap ni v1 exports0 e1 [] := by
    simp [analyzeReexports, hhr]
  rw [hstep]
  have hni_nodup : (ni.map QItem.url).Nodup := (hnodup (by simp)).1 (by simp)
  have hni_v1 : ∀ q0 ∈ ni, q0.url ∈ v1 := (hnodup (by simp)).2
  have hni_new : ∀ q0 ∈ ni, q0.url ∉ [entry] := by
    intro q0 hq0
    rcases hchar q0 hq0 with hq | hq
    · simp at hq
    · exact hq.1
  have h1 : (([] : List String) ++ ni.map QItem.url).Nodup := by
    simpa using hni_nodup
  have h2 : ∀ u ∈ ([] : List String) ++ ni.map QItem.url, u ∈ v1 := by
    intro u hu
    simp only [List.nil_append, List.mem_map] at hu
    obtain ⟨q0, hq0, hq0u⟩ := hu
    exact hq0u ▸ hni_v1 q0 hq0
  obtain ⟨hn, hx⟩ := runLoop_analyzed_inv g rmap ni v1 exports0 e1 [] h1 h2
  refine ⟨hn, ?_⟩
  apply hx entry (hmono entry (List.mem_cons_self _ _))
  intro hc
  simp only [List.nil_append, List.mem_map] at hc
  obtain ⟨q0, hq0, hq0e⟩ := hc
  exact hni_new q0 hq0 (by simp [hq0e])

end DenoNpm
